import Mathlib

set_option maxRecDepth 1000000

/-!
# gwg-manager: time-limited group membership through a chat approval workflow

A shallow embedding of `main.go`.  Go strings are Lean strings, slices are
lists, an `error` value is an `Option String` (`none` is Go's `nil`), and the
calls the program makes to its collaborators (the chat platform, the identity
directory, the Grant Expiry Store) are recorded as a list of `Effect`s in
program order.  The answers of the collaborators are the fields of `Env`.  A
run ends in an `Outcome`: a return, a panic, or a wait loop that is still
running after the number of iterations the model was asked to run.

The definitions come first: the data, the eligibility query, the request
payload with its JSON decoding, the prompts, `addUserToGroup` and
`removeMemberShipOnCacheEvicted`, the cases of the interactive event loop and
the refresh loop `getGroups`.  The theorems follow, component by component.
-/

namespace GwgManager

/-! ## Constants of `main.go` -/

def addUserBlockID : String := "add-user"
def selectUserActionID : String := "select-user"
def submitSelectingUserActionID : String := "submit-selecting-user"
def selectGroupActionID : String := "select-group"
def selectExpirationActionID : String := "select-expiration"
def submitAddingUserActionID : String := "submit-adding-user"
def allowAddingUserActionID : String := "accept-adding-user"
def denyAddingUserActionID : String := "deny-adding-user"
def cancelActionID : String := "cancel"
def AttachmentGoodColor : String := "good"
def AttachmentDangerColor : String := "danger"
def cacheKeyGroups : String := "groups"

/-! ## Records of the identity directory -/

/-- The directory's `EntityKey`: the identifier of a member (an email). -/
structure EntityKey where
  Id : String := ""
  deriving DecidableEq, Repr

/-- The directory's `MembershipRole`. -/
structure MembershipRole where
  Name : String := ""
  deriving DecidableEq, Repr

/-- Modelled from the spec: the directory's `Membership` record, whose Go
declaration lives in the cloudidentity client library and not in `main.go`.
The spec's data model gives it an identifier, a member identifier and a role
set; the fields below are the ones `main.go` reads or writes.  The directory
sets the member key on every membership it returns, so the pointer field
`MemberKey` is represented by the key it points to, and a field the program
leaves unset holds Go's zero value. -/
structure Membership where
  Name : String := ""
  MemberKey : EntityKey := {}
  PreferredMemberKey : EntityKey := {}
  Roles : List MembershipRole := []
  deriving DecidableEq, Repr

/-- The type `cacheGroup` of `main.go`: one group of the snapshot. -/
structure cacheGroup where
  name : String
  displayName : String
  memberShips : List Membership
  deriving DecidableEq, Repr

/-! ## Chat-platform message values -/

def PlainTextType : String := "plain_text"
def MarkdownType : String := "mrkdwn"
def OptTypeUser : String := "users_select"
def OptTypeStatic : String := "static_select"
def StylePrimary : String := "primary"
def StyleDanger : String := "danger"

structure TextBlockObject where
  Type_ : String
  Text : String
  Emoji : Bool
  Verbatim : Bool
  deriving DecidableEq, Repr

def NewTextBlockObject (elementType text : String) (emoji verbatim : Bool) : TextBlockObject :=
  { Type_ := elementType, Text := text, Emoji := emoji, Verbatim := verbatim }

/-- An option of a select menu.  `Text` is a pointer in Go: `none` is `nil`,
which is what an unset option (nothing selected) carries. -/
structure OptionBlockObject where
  Text : Option TextBlockObject
  Value : String
  deriving DecidableEq, Repr

/-- The constructor `slack.NewOptionBlockObject(value, text, nil)`. -/
def NewOptionBlockObject (value : String) (text : TextBlockObject) : OptionBlockObject :=
  { Text := some text, Value := value }

/-! ## The Directory Snapshot Cache (`groupCache`)

`groupCache` is created with no expiration and no cleanup interval, so it is a
plain map from keys to stored values. -/

abbrev GroupCache := List (String × List cacheGroup)

def GroupCache.Get (c : GroupCache) (k : String) : Option (List cacheGroup) :=
  c.lookup k

def GroupCache.Set (c : GroupCache) (k : String) (v : List cacheGroup) : GroupCache :=
  (k, v) :: c.filter (fun kv => kv.1 != k)

/-! ## Eligibility query -/

def isUserAlreadyExistedInGroup (userEmail : String) : List Membership → Bool
  | [] => false
  | ms :: mss =>
    if userEmail == ms.MemberKey.Id then true
    else isUserAlreadyExistedInGroup userEmail mss

/-- The `for _, g := range *groups` loop of `buildSelectableGroupObjects`,
started with the objects appended so far. -/
def buildSelectableGroupObjectsLoop (userEmail : String) :
    List cacheGroup → List OptionBlockObject → List OptionBlockObject
  | [], objects => objects
  | g :: groups, objects =>
    if !isUserAlreadyExistedInGroup userEmail g.memberShips then
      let o := NewOptionBlockObject g.name (NewTextBlockObject PlainTextType g.displayName false false)
      buildSelectableGroupObjectsLoop userEmail groups (objects ++ [o])
    else
      buildSelectableGroupObjectsLoop userEmail groups objects

/-- The function `buildSelectableGroupObjects`: the objects and the error
(always `nil`). -/
def buildSelectableGroupObjects (groupCache : GroupCache) (userEmail : String) :
    List OptionBlockObject × Option String :=
  match groupCache.Get cacheKeyGroups with
  | some groups => (buildSelectableGroupObjectsLoop userEmail groups [], none)
  | none => ([], none)

/-- The option offered for a group: its name as value, its display name as text. -/
def groupOption (g : cacheGroup) : OptionBlockObject :=
  { Text := some { Type_ := "plain_text", Text := g.displayName, Emoji := false, Verbatim := false },
    Value := g.name }

/-! ## The request payload and its JSON decoding

`json.Unmarshal` belongs to Go's standard library.  The model below follows
its documented behaviour for a destination of type `requestMemberShip`: the
input must be one syntactically valid JSON value; an object is decoded member
by member, a key selects the field whose tag equals it or, failing that,
matches it under case folding; later members overwrite earlier ones; `null`
leaves a field alone; a string field takes a JSON string; the field
`Expiration`, tagged `expiration,string`, takes a JSON string whose text is a
decimal integer of 64 bits.  Strings are sequences of Unicode characters, so
the replacement of invalid UTF-8 is not modelled; the texts of the errors are
representative, and where Go goes on decoding after an error of a field and
reports it at the end, the model stops at it. -/

/-- The type `requestMemberShip` of `main.go`: the request carried by the
Allow and Deny buttons. -/
structure requestMemberShip where
  AddingUserEmail : String := ""
  AddingUserID : String := ""
  GroupID : String := ""
  GroupName : String := ""
  Expiration : Int := 0
  RequestedUserID : String := ""
  deriving DecidableEq, Repr

/-- A parsed JSON value, as far as decoding into `requestMemberShip` can tell
values apart: strings with their unquoted text, `null`, objects with their
members in input order, and everything else (numbers, booleans, arrays). -/
inductive JVal where
  | str (s : List Char)
  | null
  | other
  | obj (members : List (List Char × JVal))

instance : Inhabited JVal := ⟨JVal.null⟩

/-- What the scanner is about to read. -/
inductive ScanMode where
  | value
  | elemsOpen
  | elemsNext
  | membersOpen
  | membersNext
  deriving DecidableEq

def isSpace (c : Char) : Bool :=
  c == ' ' || c == '\t' || c == '\r' || c == '\n'

def skipSpace : List Char → List Char
  | [] => []
  | c :: cs => if isSpace c then skipSpace cs else c :: cs

/-- The decimal digits `'0'` to `'9'`. -/
def isDigit (c : Char) : Bool := decide (48 ≤ c.toNat) && decide (c.toNat ≤ 57)

def hexVal (c : Char) : Option Nat :=
  if '0' ≤ c && c ≤ '9' then some (c.toNat - 48)
  else if 'a' ≤ c && c ≤ 'f' then some (c.toNat - 87)
  else if 'A' ≤ c && c ≤ 'F' then some (c.toNat - 55)
  else none

def hex4 (a b c d : Char) : Option Nat :=
  match hexVal a, hexVal b, hexVal c, hexVal d with
  | some x, some y, some z, some w => some (((x * 16 + y) * 16 + z) * 16 + w)
  | _, _, _, _ => none

/-- The character an escape letter stands for (`\u` is handled apart). -/
def unescape (e : Char) : Option Char :=
  if e == '"' then some '"'
  else if e == '\\' then some '\\'
  else if e == '/' then some '/'
  else if e == 'b' then some (Char.ofNat 8)
  else if e == 'f' then some (Char.ofNat 12)
  else if e == 'n' then some '\n'
  else if e == 'r' then some '\r'
  else if e == 't' then some '\t'
  else none

def consChar (c : Char) : Option (List Char × List Char) → Option (List Char × List Char)
  | some (s, rest) => some (c :: s, rest)
  | none => none

/-- Emits U+FFFD for a pending unpaired surrogate escape. -/
def flush (pending : Option Nat) (res : Option (List Char × List Char)) :
    Option (List Char × List Char) :=
  match pending with
  | some _ => consChar (Char.ofNat 0xFFFD) res
  | none => res

/-- Reads a JSON string whose opening quote has been consumed: the unquoted
text and the input after the closing quote.  `pending` is a surrogate escape
that has been read and waits for its partner: with a low surrogate escape right
after a high one the pair is one character, any other surrogate escape is
replaced by U+FFFD. -/
def scanString : Option Nat → List Char → Option (List Char × List Char)
  | _, [] => none
  | pending, c :: cs =>
    if c == '"' then flush pending (some ([], cs))
    else if c == '\\' then
      match cs with
      | [] => none
      | e :: r =>
        if e == 'u' then
          match r with
          | a :: b :: c2 :: d :: r2 =>
            match hex4 a b c2 d with
            | none => none
            | some rr =>
              match pending with
              | some hi =>
                if hi < 0xDC00 && 0xDC00 ≤ rr && rr < 0xE000 then
                  consChar (Char.ofNat ((hi - 0xD800) * 1024 + (rr - 0xDC00) + 0x10000))
                    (scanString none r2)
                else if 0xD800 ≤ rr && rr < 0xE000 then
                  consChar (Char.ofNat 0xFFFD) (scanString (some rr) r2)
                else consChar (Char.ofNat 0xFFFD) (consChar (Char.ofNat rr) (scanString none r2))
              | none =>
                if 0xD800 ≤ rr && rr < 0xE000 then scanString (some rr) r2
                else consChar (Char.ofNat rr) (scanString none r2)
          | _ => none
        else
          match unescape e with
          | none => none
          | some x => flush pending (consChar x (scanString none r))
    else if c.toNat < 0x20 then none
    else flush pending (consChar c (scanString none cs))

def skipDigits : List Char → List Char
  | [] => []
  | c :: cs => if isDigit c then skipDigits cs else c :: cs

/-- The digits of a fraction or an exponent: at least one. -/
def scanDigits1 : List Char → Option (List Char)
  | [] => none
  | c :: cs => if isDigit c then some (skipDigits cs) else none

def scanExponent : List Char → Option (List Char)
  | [] => some []
  | c :: cs =>
    if c == 'e' || c == 'E' then
      match cs with
      | [] => none
      | s :: r => if s == '+' || s == '-' then scanDigits1 r else scanDigits1 (s :: r)
    else some (c :: cs)

def scanFraction : List Char → Option (List Char)
  | [] => some []
  | c :: cs =>
    if c == '.' then
      match scanDigits1 cs with
      | some r => scanExponent r
      | none => none
    else scanExponent (c :: cs)

/-- Reads a JSON number whose optional minus sign has been consumed. -/
def scanNumberBody : List Char → Option (List Char)
  | [] => none
  | c :: cs =>
    if c == '0' then scanFraction cs
    else if isDigit c then scanFraction (skipDigits cs)
    else none

def dropPrefix? (p : List Char) (cs : List Char) : Option (List Char) :=
  if p.isPrefixOf cs then some (cs.drop p.length) else none

def maxNestingDepth : Nat := 10000

def syntaxError : String := "invalid character or unexpected end of JSON input"
def outOfFuel : String := "scanner out of fuel"

/-- The result of the scanner for a string it could, or could not, read. -/
def stringValue : Option (List Char × List Char) → Except String (JVal × List Char)
  | some (s, r1) => .ok (.str s, r1)
  | none => .error syntaxError

/-- The result of the scanner for a literal or a number it could, or could not,
read. -/
def plainValue (v : JVal) : Option (List Char) → Except String (JVal × List Char)
  | some r1 => .ok (v, r1)
  | none => .error syntaxError

/-- The JSON scanner.  `depth` counts the arrays and objects that are open.
Each call spends one unit of fuel and reads at least one character; a syntax
error and the end of the fuel are told apart by the text of the error. -/
def scan : Nat → ScanMode → Nat → List Char → Except String (JVal × List Char)
  | 0, _, _, _ => .error outOfFuel
  | fuel + 1, .value, depth, cs =>
    match cs with
    | [] => .error syntaxError
    | c :: r =>
      if c == '"' then stringValue (scanString none r)
      else if c == '\x7b' then
        if depth + 1 > maxNestingDepth then .error syntaxError
        else scan fuel .membersOpen (depth + 1) (skipSpace r)
      else if c == '[' then
        if depth + 1 > maxNestingDepth then .error syntaxError
        else scan fuel .elemsOpen (depth + 1) (skipSpace r)
      else if c == 't' then plainValue .other (dropPrefix? ['r', 'u', 'e'] r)
      else if c == 'f' then plainValue .other (dropPrefix? ['a', 'l', 's', 'e'] r)
      else if c == 'n' then plainValue .null (dropPrefix? ['u', 'l', 'l'] r)
      else if c == '-' then plainValue .other (scanNumberBody r)
      else plainValue .other (scanNumberBody (c :: r))
  | fuel + 1, .elemsOpen, depth, cs =>
    match cs with
    | [] => .error syntaxError
    | c :: r =>
      if c == ']' then .ok (.other, r)
      else
        match scan fuel .value depth (c :: r) with
        | .ok (_, r1) => scan fuel .elemsNext depth (skipSpace r1)
        | .error e => .error e
  | fuel + 1, .elemsNext, depth, cs =>
    match cs with
    | [] => .error syntaxError
    | c :: r =>
      if c == ']' then .ok (.other, r)
      else if c == ',' then
        match scan fuel .value depth (skipSpace r) with
        | .ok (_, r1) => scan fuel .elemsNext depth (skipSpace r1)
        | .error e => .error e
      else .error syntaxError
  | fuel + 1, .membersOpen, depth, cs =>
    match cs with
    | [] => .error syntaxError
    | c :: r =>
      if c == '\x7d' then .ok (.obj [], r)
      else if c == '"' then
        match scanString none r with
        | some (k, r1) =>
          match skipSpace r1 with
          | [] => .error syntaxError
          | c2 :: r2 =>
            if c2 == ':' then
              match scan fuel .value depth (skipSpace r2) with
              | .ok (v, r3) =>
                match scan fuel .membersNext depth (skipSpace r3) with
                | .ok (.obj ms, r4) => .ok (.obj ((k, v) :: ms), r4)
                | .ok _ => .error syntaxError
                | .error e => .error e
              | .error e => .error e
            else .error syntaxError
        | none => .error syntaxError
      else .error syntaxError
  | fuel + 1, .membersNext, depth, cs =>
    match cs with
    | [] => .error syntaxError
    | c :: r =>
      if c == '\x7d' then .ok (.obj [], r)
      else if c == ',' then
        match skipSpace r with
        | [] => .error syntaxError
        | q :: r0 =>
          if q == '"' then
            match scanString none r0 with
            | some (k, r1) =>
              match skipSpace r1 with
              | [] => .error syntaxError
              | c2 :: r2 =>
                if c2 == ':' then
                  match scan fuel .value depth (skipSpace r2) with
                  | .ok (v, r3) =>
                    match scan fuel .membersNext depth (skipSpace r3) with
                    | .ok (.obj ms, r4) => .ok (.obj ((k, v) :: ms), r4)
                    | .ok _ => .error syntaxError
                    | .error e => .error e
                  | .error e => .error e
                else .error syntaxError
            | none => .error syntaxError
          else .error syntaxError
      else .error syntaxError

/-- The whole input as one JSON value (Go's `checkValid` followed by the
parse): white space, a value, white space, end of input.  The fuel, two units
a character and one more, is never used up (`parseJSON_fuel`). -/
def parseJSON (data : List Char) : Except String JVal :=
  match scan (2 * data.length + 1) .value 0 (skipSpace data) with
  | .ok (v, rest) => if skipSpace rest = [] then .ok v else .error syntaxError
  | .error e => .error e

/-! ### Decoding into `requestMemberShip` -/

/-- Case folding of a key character, as far as it can reach an ASCII letter:
lower-case letters, U+017F (long s) and U+212A (Kelvin sign). -/
def foldRune (c : Char) : Char :=
  if 'a' ≤ c && c ≤ 'z' then Char.ofNat (c.toNat - 32)
  else if c == Char.ofNat 0x17F then 'S'
  else if c == Char.ofNat 0x212A then 'K'
  else c

def foldName (s : List Char) : List Char := s.map foldRune

/-- The fields of `requestMemberShip`, in declaration order. -/
inductive Field where
  | AddingUserEmail
  | AddingUserID
  | GroupID
  | GroupName
  | Expiration
  | RequestedUserID
  deriving DecidableEq, Repr

/-- The `json` tag of a field. -/
def Field.tag : Field → String
  | .AddingUserEmail => "addingUserEmail"
  | .AddingUserID => "addingUserID"
  | .GroupID => "groupID"
  | .GroupName => "groupName"
  | .Expiration => "expiration"
  | .RequestedUserID => "requestedUserID"

def allFields : List Field :=
  [.AddingUserEmail, .AddingUserID, .GroupID, .GroupName, .Expiration, .RequestedUserID]

def findField (key : List Char) : Option Field :=
  match allFields.find? (fun f => f.tag.data == key) with
  | some f => some f
  | none => allFields.find? (fun f => foldName f.tag.data == foldName key)

/-- Reads decimal digits into `acc`; `none` at a character that is no digit. -/
def parseUint : List Char → Nat → Option Nat
  | [], acc => some acc
  | c :: cs, acc => if isDigit c then parseUint cs (acc * 10 + (c.toNat - 48)) else none

/-- The call `strconv.ParseInt(s, 10, 64)`. -/
def ParseInt (s : List Char) : Option Int :=
  match s with
  | [] => none
  | c :: cs =>
    if c == '-' then
      match cs with
      | [] => none
      | _ :: _ =>
        match parseUint cs 0 with
        | some n => if n ≤ 2 ^ 63 then some (-(n : Int)) else none
        | none => none
    else if c == '+' then
      match cs with
      | [] => none
      | _ :: _ =>
        match parseUint cs 0 with
        | some n => if n < 2 ^ 63 then some (n : Int) else none
        | none => none
    else
      match parseUint (c :: cs) 0 with
      | some n => if n < 2 ^ 63 then some (n : Int) else none
      | none => none

def stringTagError : String := "json: invalid use of ,string struct tag"
def unmarshalTypeError : String := "json: cannot unmarshal value into Go struct field"

/-- Stores the text of a quoted value into `Expiration` (the decoder's
`literalStore` for a field tagged `,string`). -/
def storeExpiration (rms : requestMemberShip) (item : List Char) : Except String requestMemberShip :=
  match item with
  | [] => .error stringTagError
  | c :: _ =>
    if c == 'n' then
      if item = ['n', 'u', 'l', 'l'] then .ok rms else .error stringTagError
    else if c == 't' || c == 'f' then .error stringTagError
    else if c == '"' then .error unmarshalTypeError
    else if c != '-' && !isDigit c then .error stringTagError
    else
      match ParseInt item with
      | some n => .ok { rms with Expiration := n }
      | none => .error unmarshalTypeError

/-- Stores one member value into the field its key selected. -/
def storeField (rms : requestMemberShip) (f : Field) (v : JVal) : Except String requestMemberShip :=
  match f, v with
  | _, .null => .ok rms
  | .AddingUserEmail, .str s => .ok { rms with AddingUserEmail := String.mk s }
  | .AddingUserID, .str s => .ok { rms with AddingUserID := String.mk s }
  | .GroupID, .str s => .ok { rms with GroupID := String.mk s }
  | .GroupName, .str s => .ok { rms with GroupName := String.mk s }
  | .RequestedUserID, .str s => .ok { rms with RequestedUserID := String.mk s }
  | .Expiration, .str s => storeExpiration rms s
  | .Expiration, _ => .error stringTagError
  | _, _ => .error unmarshalTypeError

/-- Decodes the members of the top-level object in input order; members with
an unknown key are skipped.  The first error ends the decoding. -/
def decodeMembers (rms : requestMemberShip) : List (List Char × JVal) → Except String requestMemberShip
  | [] => .ok rms
  | (k, v) :: ms =>
    match findField k with
    | none => decodeMembers rms ms
    | some f =>
      match storeField rms f v with
      | .ok rms1 => decodeMembers rms1 ms
      | .error e => .error e

/-- The call `json.Unmarshal([]byte(data), &rms)` on a zero-valued `rms`: the
decoded request, or the error. -/
def jsonUnmarshal (data : String) : Except String requestMemberShip :=
  match parseJSON data.data with
  | .error e => .error e
  | .ok (.obj ms) => decodeMembers {} ms
  | .ok .null => .ok {}
  | .ok _ => .error "json: cannot unmarshal value into Go value of type main.requestMemberShip"

/-- The button payload of the submit handler: the `fmt.Sprintf` of the JSON
template with the six values, each substituted for its `%s` as it is. -/
def buttonValueOf (addingUserEmail addingUserID groupID groupName expiration requestedUserID : String) :
    String :=
  "\x7b\"addingUserEmail\":\"" ++ addingUserEmail ++ "\",\"addingUserID\":\"" ++ addingUserID
    ++ "\",\"groupID\":\"" ++ groupID ++ "\",\"groupName\":\"" ++ groupName
    ++ "\",\"expiration\":\"" ++ expiration ++ "\",\"requestedUserID\":\"" ++ requestedUserID
    ++ "\"\x7d"

/-! ## Chat-platform requests and callbacks -/

structure UserProfile where
  Email : String := ""
  deriving DecidableEq, Repr

structure User where
  ID : String := ""
  Profile : UserProfile := {}
  deriving DecidableEq, Repr

structure Channel where
  ID : String := ""
  deriving DecidableEq, Repr

structure Attachment where
  Text : String
  Color : String
  deriving DecidableEq, Repr

/-- An element of an action block: a select menu (with the `InitialUser` the
program may set on it) or a button with its style. -/
inductive BlockElement where
  | optionsSelect (optType : String) (placeholder : TextBlockObject) (actionID : String)
      (options : List OptionBlockObject) (InitialUser : String)
  | button (actionID value : String) (text : TextBlockObject) (style : String)
  deriving DecidableEq, Repr

inductive Block where
  | sectionBlock (text : TextBlockObject)
  | actionBlock (blockID : String) (elements : List BlockElement)
  deriving DecidableEq, Repr

/-- The options of a post.  `slack.MsgOptionCompose(ops...)` applies `ops` in
order, so a composed option is represented by its members in place. -/
inductive MsgOption where
  | Blocks (blocks : List Block)
  | Attachments (attachments : List Attachment)
  | ReplaceOriginal (responseURL : String)
  | DeleteOriginal (responseURL : String)
  | PostEphemeral (userID : String)
  deriving DecidableEq, Repr

/-- A block action of a callback: the pressed element, or the state of a
select menu. -/
structure BlockAction where
  ActionID : String := ""
  Value : String := ""
  SelectedOption : OptionBlockObject := { Text := none, Value := "" }
  SelectedUser : String := ""
  deriving DecidableEq, Repr

/-- The map `Values` of the callback state; a missing entry reads as the zero
`BlockAction`, as indexing a Go map does. -/
structure BlockActionStates where
  Values : String → String → BlockAction

structure ActionCallbacks where
  BlockActions : List BlockAction

structure InteractionCallback where
  CallbackID : String := ""
  ResponseURL : String := ""
  User : User := {}
  Channel : Channel := {}
  BlockActionState : BlockActionStates := { Values := fun _ _ => {} }
  ActionCallback : ActionCallbacks := { BlockActions := [] }

/-! ## Directory operations -/

structure Status where
  Message : String
  deriving DecidableEq, Repr

/-- A long-running operation as the directory returned it: `Error` is a
pointer (`none` is `nil`), `Response` the raw JSON of the result. -/
structure Operation where
  Done : Bool := false
  Error : Option Status := none
  Response : String := ""
  deriving DecidableEq, Repr

/-! ## Effects, collaborators and outcomes -/

/-- A call the program makes to a collaborator, or a write to the Grant Expiry
Store (`memberShipCache.Set(k, x, d)`, with `d` in nanoseconds). -/
inductive Effect where
  | PostMessage (channelID : String) (options : List MsgOption)
  | PostEphemeral (channelID userID : String) (options : List MsgOption)
  | GetUserInfo (user : String)
  | GetUserByEmail (email : String)
  | Debugf (msg : String)
  | Debugln (msg : String)
  | DebugfRemoved (ms : Membership)
  | MembershipsCreate (parent : String) (membership : Membership)
  | MembershipsDelete (name : String)
  | memberShipCacheSet (k : String) (x : Membership) (d : Int)
  deriving DecidableEq, Repr

/-- The answers of the collaborators, the configuration and the snapshot cache
as they are while one event is handled.  A failing call answers with the text
of its error.  `unmarshalMembership` stands for `json.Unmarshal` into a
`cloudidentity.Membership`, a record of the client library. -/
structure Env where
  PostMessage : String → List MsgOption → Option String
  PostEphemeral : String → String → List MsgOption → Option String
  GetUserInfo : String → Except String User
  GetUserByEmail : String → Except String User
  MembershipsCreate : String → Membership → Except String Operation
  MembershipsDelete : String → Except String Operation
  unmarshalMembership : String → Except String Membership
  groupCache : GroupCache
  approverGroupID : String

/-- How a run of Go code ends: it returns, it panics, or it is still inside a
wait loop when the fuel given to the model is used up. -/
inductive Outcome (α : Type) where
  | ret (a : α)
  | panic (msg : String)
  | spin
  deriving DecidableEq, Repr

/-- The effects of a run, in program order, and how it ended. -/
structure Run (α : Type) where
  effects : List Effect
  outcome : Outcome α
  deriving DecidableEq, Repr

/-- What a case of the event loop does to the loop: `next` goes on to the next
event, `exit` is a `return` out of the goroutine. -/
inductive Flow where
  | next
  | exit
  deriving DecidableEq, Repr

def nilDereference : String := "runtime error: invalid memory address or nil pointer dereference"

/-- The method call `err.Error()` on an `error` variable: a nil dereference
when the variable holds `nil`. -/
def errError (err : Option String) : Outcome String :=
  match err with
  | some m => .ret m
  | none => .panic nilDereference

/-! ## Grant Expiry Store (`memberShipCache`) -/

/-- The constant `time.Hour`, in nanoseconds. -/
def Hour : Int := 3600000000000

/-- Two's complement wrap-around of 64-bit signed arithmetic. -/
def wrapInt64 (z : Int) : Int := (z + 2 ^ 63) % 2 ^ 64 - 2 ^ 63

/-- The expression `time.Duration(expiration) * time.Hour`. -/
def durationHours (expiration : Int) : Int := wrapInt64 (wrapInt64 expiration * Hour)

/-- The constants `DefaultExpiration` and `NoExpiration` of the cache library. -/
def DefaultExpiration : Int := 0
def NoExpiration : Int := -1

/-- An item of the store: the stored membership and the instant it expires at,
in nanoseconds of Unix time.  An instant that is not positive means that the
item never expires: the library compares with the clock only when
`Expiration > 0`. -/
structure Item where
  Object : Membership
  Expiration : Int
  deriving DecidableEq, Repr

/-- The store: its items by key. -/
abbrev MemberShipCache := List (String × Item)

/-- The call `memberShipCache.Set(k, x, d)` of the cache library, made when the
clock reads `now` (nanoseconds of Unix time).  The store is created with
`NoExpiration` as its default duration, which a `d` equal to
`DefaultExpiration` is replaced by; for a positive `d` the expiry instant is
`time.Now().Add(d).UnixNano()`, a 64-bit value that wraps around; otherwise it
is 0.  An existing item of the key is replaced. -/
def MemberShipCache.Set (c : MemberShipCache) (now : Int) (k : String) (x : Membership) (d : Int) :
    MemberShipCache :=
  let d1 := if d == DefaultExpiration then NoExpiration else d
  let e := if d1 > 0 then wrapInt64 (now + d1) else 0
  (k, { Object := x, Expiration := e }) :: c.filter (fun kv => kv.1 != k)

/-- The time an item set at clock reading `now` has to live: the distance to
its expiry instant, or `none` when it never expires. -/
def Item.lifetime (item : Item) (now : Int) : Option Int :=
  if item.Expiration > 0 then some (item.Expiration - now) else none

/-- The store after the writes among the effects of a run made while the clock
reads `now`. -/
def storeAfter (now : Int) (c : MemberShipCache) : List Effect → MemberShipCache
  | [] => c
  | .memberShipCacheSet k x d :: es => storeAfter now (c.Set now k x d) es
  | _ :: es => storeAfter now c es

def isMembershipsCreate : Effect → Bool
  | .MembershipsCreate _ _ => true
  | _ => false

def isMembershipsDelete : Effect → Bool
  | .MembershipsDelete _ => true
  | _ => false

/-! ## Posting the prompts -/

def postMsgForSelectingUser (env : Env) (chID userID : String) (msgOps : List MsgOption) :
    List Effect × Option String :=
  let UserSelectionMenu := BlockElement.optionsSelect OptTypeUser
    (NewTextBlockObject PlainTextType "Select an user" false false) selectUserActionID [] userID
  let options := [
    MsgOption.Blocks [
      Block.actionBlock addUserBlockID [
        UserSelectionMenu,
        .button submitSelectingUserActionID ""
          (NewTextBlockObject PlainTextType "submit" false false) StylePrimary,
        .button cancelActionID ""
          (NewTextBlockObject PlainTextType cancelActionID false false) StyleDanger]],
    MsgOption.PostEphemeral userID] ++ msgOps
  ([.PostMessage chID options], env.PostMessage chID options)

def selectableExpirations : List (String × String) :=
  [("1", "1h"), ("6", "6h"), ("12", "12h"), ("24", "24h")]

def buildExpirationObjects : List OptionBlockObject :=
  selectableExpirations.map (fun e =>
    NewOptionBlockObject e.1 (NewTextBlockObject PlainTextType e.2 false false))

def postMsgForSelectingGroupAndExpiration (env : Env) (chID userID : String) (addingUser : User)
    (msgOps : List MsgOption) : List Effect × Option String :=
  match buildSelectableGroupObjects env.groupCache addingUser.Profile.Email with
  | (_, some err) => ([], some err)
  | (groupObjects, none) =>
    let options := [
      MsgOption.Blocks [
        Block.actionBlock addUserBlockID [
          .optionsSelect OptTypeStatic
            (NewTextBlockObject PlainTextType "Select a group" false false)
            selectGroupActionID groupObjects "",
          .optionsSelect OptTypeStatic
            (NewTextBlockObject PlainTextType "Select an expiration" false false)
            selectExpirationActionID buildExpirationObjects "",
          .button submitAddingUserActionID addingUser.Profile.Email
            (NewTextBlockObject PlainTextType "submit" false false) StylePrimary,
          .button cancelActionID ""
            (NewTextBlockObject PlainTextType cancelActionID false false) StyleDanger]],
      MsgOption.PostEphemeral userID] ++ msgOps
    ([.PostMessage chID options], env.PostMessage chID options)

/-- The attachment of the validation notice. -/
def validationNotice : Attachment :=
  { Text := "Must be selected before submission :warning:", Color := AttachmentDangerColor }

/-! ## Granting and revoking a membership -/

def approvedButFailed (requestedUserID approvedUserID detail : String) : String :=
  "Request of <@" ++ requestedUserID ++ "> has been approved by <@" ++ approvedUserID
    ++ ">, but it failed with an error.\n" ++ detail ++ "."

def approvedAndProcessed (rms : requestMemberShip) (approvedUserID : String) : String :=
  "Request of <@" ++ rms.RequestedUserID ++ "> has been approved by <@" ++ approvedUserID
    ++ "> and processed successfully.\n<@" ++ rms.AddingUserID ++ "> is joined `"
    ++ rms.GroupName ++ "` group."

/-- The wait loop `for { if o.Done { ... } }` of `addUserToGroup`.  The loop
body reads the operation `o` it was given and makes no call, so an iteration
that finds `o.Done` false is followed by an identical one; `fuel` bounds the
iterations the model runs.  `err` is the variable of that name in scope, which
the call that produced `o` left `nil`. -/
def addUserToGroupWait (env : Env) (rms : requestMemberShip) (approvedUserID : String)
    (err : Option String) (o : Operation) : Nat → Run (String × Bool)
  | 0 => ⟨[], .spin⟩
  | fuel + 1 =>
    if o.Done then
      match o.Error with
      | some _ =>
        match errError err with
        | .ret detail => ⟨[], .ret (approvedButFailed rms.RequestedUserID approvedUserID detail, true)⟩
        | .panic msg => ⟨[], .panic msg⟩
        | .spin => ⟨[], .spin⟩
      | none =>
        match env.unmarshalMembership o.Response with
        | .error e => ⟨[], .ret (e, true)⟩
        | .ok ms =>
          ⟨[.memberShipCacheSet ms.Name ms (durationHours rms.Expiration)],
            .ret (approvedAndProcessed rms approvedUserID, false)⟩
    else addUserToGroupWait env rms approvedUserID err o fuel

/-- The function `addUserToGroup`: the message and the error flag. -/
def addUserToGroup (env : Env) (fuel : Nat) (blockAction : BlockAction) (approvedUserID : String) :
    Run (String × Bool) :=
  match jsonUnmarshal blockAction.Value with
  | .error e => ⟨[], .ret ("JSON unmarshal error.\nError detail: " ++ e ++ ".", true)⟩
  | .ok rms =>
    let ms : Membership :=
      { PreferredMemberKey := { Id := rms.AddingUserEmail }, Roles := [{ Name := "MEMBER" }] }
    match env.MembershipsCreate rms.GroupID ms with
    | .error e =>
      ⟨[.MembershipsCreate rms.GroupID ms],
        .ret (approvedButFailed rms.RequestedUserID approvedUserID e, true)⟩
    | .ok o =>
      let err : Option String := none
      let r := addUserToGroupWait env rms approvedUserID err o fuel
      ⟨.MembershipsCreate rms.GroupID ms :: r.effects, r.outcome⟩

/-- The wait loop of `removeMemberShipOnCacheEvicted`; like the one of
`addUserToGroup` it reads the operation it was given and makes no call. -/
def removeMemberShipWait (ms : Membership) (o : Operation) : Nat → Run Unit
  | 0 => ⟨[], .spin⟩
  | fuel + 1 =>
    if o.Done then
      match o.Error with
      | some st => ⟨[.Debugln st.Message], .ret ()⟩
      | none => ⟨[.DebugfRemoved ms], .ret ()⟩
    else removeMemberShipWait ms o fuel

/-- The eviction callback `removeMemberShipOnCacheEvicted(key, v)`, with `v`
the stored membership. -/
def removeMemberShipOnCacheEvicted (env : Env) (fuel : Nat) (_key : String) (ms : Membership) :
    Run Unit :=
  match env.MembershipsDelete ms.Name with
  | .error e => ⟨[.MembershipsDelete ms.Name, .Debugln e], .ret ()⟩
  | .ok o =>
    let r := removeMemberShipWait ms o fuel
    ⟨.MembershipsDelete ms.Name :: r.effects, r.outcome⟩

/-! ## The cases of the interactive event loop -/

def caseCancel (env : Env) (callback : InteractionCallback) : Run Flow :=
  let attachment : Attachment :=
    { Text := "Successfully cancelled :white_check_mark:", Color := AttachmentGoodColor }
  let options := [MsgOption.ReplaceOriginal callback.ResponseURL, .Attachments [attachment]]
  match env.PostMessage "" options with
  | some err => ⟨[.PostMessage "" options, .Debugf err], .ret .exit⟩
  | none => ⟨[.PostMessage "" options], .ret .next⟩

/-- The case `submitSelectingUserActionID`. -/
def caseSubmitSelectingUser (env : Env) (callback : InteractionCallback) : Run Flow :=
  let selectedUserID :=
    (callback.BlockActionState.Values addUserBlockID selectUserActionID).SelectedUser
  let checked : List Effect × Option String :=
    if selectedUserID == "" then
      postMsgForSelectingUser env callback.CallbackID callback.User.ID
        [.ReplaceOriginal callback.ResponseURL, .Attachments [validationNotice]]
    else ([], none)
  match checked.2 with
  | some err => ⟨checked.1 ++ [.Debugf err], .ret .exit⟩
  | none =>
    match env.GetUserInfo selectedUserID with
    | .error err => ⟨checked.1 ++ [.GetUserInfo selectedUserID, .Debugf err], .ret .exit⟩
    | .ok u =>
      let posted := postMsgForSelectingGroupAndExpiration env callback.Channel.ID callback.User.ID u
        [.ReplaceOriginal callback.ResponseURL]
      match posted.2 with
      | some err =>
        ⟨checked.1 ++ [.GetUserInfo selectedUserID] ++ posted.1 ++ [.Debugf err], .ret .exit⟩
      | none => ⟨checked.1 ++ [.GetUserInfo selectedUserID] ++ posted.1, .ret .next⟩

def approvalQuestion (requestedUserID approverGroupID addingUserID groupName expirationTime : String) :
    String :=
  "Requested from <@" ++ requestedUserID ++ ">.\n<!subteam^" ++ approverGroupID ++ "> allows <@"
    ++ addingUserID ++ "> to join the `" ++ groupName ++ "` group with an expiration time of `"
    ++ expirationTime ++ "`?"

/-- The options of the approval request: the question and the action block
with the Allow and the Deny button, both carrying `buttonValue`. -/
def approvalRequest (question buttonValue : String) : List MsgOption :=
  [.Blocks [
    .sectionBlock (NewTextBlockObject MarkdownType question false false),
    .actionBlock addUserBlockID [
      .button allowAddingUserActionID buttonValue
        (NewTextBlockObject PlainTextType "Allow" false false) StylePrimary,
      .button denyAddingUserActionID buttonValue
        (NewTextBlockObject PlainTextType "Deny" false false) StyleDanger]]]

/-- The case `submitAddingUserActionID`. -/
def caseSubmitAddingUser (env : Env) (callback : InteractionCallback) (action : BlockAction) :
    Run Flow :=
  let group := (callback.BlockActionState.Values addUserBlockID selectGroupActionID).SelectedOption
  let expire :=
    (callback.BlockActionState.Values addUserBlockID selectExpirationActionID).SelectedOption
  let groupID := group.Value
  let expiration := expire.Value
  match env.GetUserByEmail action.Value with
  | .error err => ⟨[.GetUserByEmail action.Value, .Debugf err], .ret .exit⟩
  | .ok addingUser =>
    let checked : List Effect × Option String :=
      if groupID == "" || expiration == "" then
        postMsgForSelectingGroupAndExpiration env callback.Channel.ID callback.User.ID addingUser
          [.Attachments [validationNotice], .ReplaceOriginal callback.ResponseURL]
      else ([], none)
    match checked.2 with
    | some err => ⟨[.GetUserByEmail action.Value] ++ checked.1 ++ [.Debugf err], .ret .exit⟩
    | none =>
      match group.Text with
      | none => ⟨[.GetUserByEmail action.Value] ++ checked.1, .panic nilDereference⟩
      | some groupText =>
        let groupName := groupText.Text
        match expire.Text with
        | none => ⟨[.GetUserByEmail action.Value] ++ checked.1, .panic nilDereference⟩
        | some expireText =>
          let expirationTime := expireText.Text
          let buttonValue := buttonValueOf addingUser.Profile.Email addingUser.ID groupID groupName
            expiration callback.User.ID
          let request := approvalRequest
            (approvalQuestion callback.User.ID env.approverGroupID addingUser.ID groupName
              expirationTime) buttonValue
          match env.PostMessage callback.Channel.ID request with
          | some err =>
            ⟨[.GetUserByEmail action.Value] ++ checked.1
              ++ [.PostMessage callback.Channel.ID request, .Debugf err], .ret .exit⟩
          | none =>
            let attachment : Attachment :=
              { Text := "Your request has been successfully sent. It is awaiting approval from <@"
                  ++ callback.User.ID ++ "> :white_check_mark:",
                Color := AttachmentGoodColor }
            let sent := [MsgOption.Attachments [attachment], .PostEphemeral callback.User.ID,
              .ReplaceOriginal callback.ResponseURL]
            match env.PostEphemeral callback.Channel.ID callback.User.ID sent with
            | some err =>
              ⟨[.GetUserByEmail action.Value] ++ checked.1
                ++ [.PostMessage callback.Channel.ID request,
                    .PostEphemeral callback.Channel.ID callback.User.ID sent, .Debugf err],
                .ret .exit⟩
            | none =>
              ⟨[.GetUserByEmail action.Value] ++ checked.1
                ++ [.PostMessage callback.Channel.ID request,
                    .PostEphemeral callback.Channel.ID callback.User.ID sent],
                .ret .next⟩

/-- The case `allowAddingUserActionID`. -/
def caseAllowAddingUser (env : Env) (fuel : Nat) (callback : InteractionCallback)
    (action : BlockAction) : Run Flow :=
  let delete := [MsgOption.DeleteOriginal callback.ResponseURL]
  match env.PostMessage callback.Channel.ID delete with
  | some err => ⟨[.PostMessage callback.Channel.ID delete, .Debugf err], .ret .exit⟩
  | none =>
    let r := addUserToGroup env fuel action callback.User.ID
    match r.outcome with
    | .panic msg => ⟨.PostMessage callback.Channel.ID delete :: r.effects, .panic msg⟩
    | .spin => ⟨.PostMessage callback.Channel.ID delete :: r.effects, .spin⟩
    | .ret (message, isErr) =>
      let color := if isErr then AttachmentDangerColor else AttachmentGoodColor
      let notice := [MsgOption.Attachments [{ Text := message, Color := color }]]
      match env.PostMessage callback.Channel.ID notice with
      | some err =>
        ⟨.PostMessage callback.Channel.ID delete :: r.effects
          ++ [.PostMessage callback.Channel.ID notice, .Debugf err], .ret .exit⟩
      | none =>
        ⟨.PostMessage callback.Channel.ID delete :: r.effects
          ++ [.PostMessage callback.Channel.ID notice], .ret .next⟩

def deniedText (rms : requestMemberShip) (deniedUserID : String) : String :=
  "Request of <@" ++ rms.RequestedUserID ++ "> is denied by <@" ++ deniedUserID ++ ">.\n<@"
    ++ rms.AddingUserID ++ "> did not join `" ++ rms.GroupName ++ "` group."

/-- The options of the denial notice. -/
def denialNotice (rms : requestMemberShip) (deniedUserID : String) : List MsgOption :=
  [.Attachments [{ Text := deniedText rms deniedUserID, Color := AttachmentDangerColor }]]

/-- The case `denyAddingUserActionID`. -/
def caseDenyAddingUser (env : Env) (callback : InteractionCallback) (action : BlockAction) :
    Run Flow :=
  let delete := [MsgOption.DeleteOriginal callback.ResponseURL]
  match env.PostMessage callback.Channel.ID delete with
  | some err => ⟨[.PostMessage callback.Channel.ID delete, .Debugf err], .ret .exit⟩
  | none =>
    match jsonUnmarshal action.Value with
    | .error err => ⟨[.PostMessage callback.Channel.ID delete, .Debugf err], .ret .exit⟩
    | .ok rms =>
      let notice := denialNotice rms callback.User.ID
      match env.PostMessage callback.Channel.ID notice with
      | some err =>
        ⟨[.PostMessage callback.Channel.ID delete, .PostMessage callback.Channel.ID notice,
          .Debugf err], .ret .exit⟩
      | none =>
        ⟨[.PostMessage callback.Channel.ID delete, .PostMessage callback.Channel.ID notice],
          .ret .next⟩

/-- The `switch action.ActionID` of the interactive event loop, for a callback
of type block actions; `action` is the last block action of the callback. -/
def handleBlockActions (env : Env) (fuel : Nat) (callback : InteractionCallback) : Run Flow :=
  match callback.ActionCallback.BlockActions.getLast? with
  | none => ⟨[], .panic "runtime error: index out of range [-1]"⟩
  | some action =>
    if action.ActionID == cancelActionID then caseCancel env callback
    else if action.ActionID == submitSelectingUserActionID then caseSubmitSelectingUser env callback
    else if action.ActionID == submitAddingUserActionID then caseSubmitAddingUser env callback action
    else if action.ActionID == allowAddingUserActionID then
      caseAllowAddingUser env fuel callback action
    else if action.ActionID == denyAddingUserActionID then caseDenyAddingUser env callback action
    else ⟨[], .ret .next⟩

/-! ## The refresh loop of the Directory Snapshot Cache -/

/-- A group as the directory lists it. -/
structure Group where
  Name : String
  DisplayName : String
  deriving DecidableEq, Repr

/-- What the directory answers during one refresh cycle: to the listing of the
groups, and to the listing of the memberships of a group. -/
structure CycleResponse where
  GroupsList : Except String (List Group)
  MembershipsList : String → Except String (List Membership)

/-- The inner loop `for _, g := range res.Groups` of `getGroups`. -/
def getGroupsMemberships (cycle : CycleResponse) :
    List Group → List cacheGroup → Except String (List cacheGroup)
  | [], cacheGroups => .ok cacheGroups
  | g :: groups, cacheGroups =>
    match cycle.MembershipsList g.Name with
    | .error err => .error err
    | .ok memberships =>
      getGroupsMemberships cycle groups
        (cacheGroups ++ [{ name := g.Name, displayName := g.DisplayName, memberShips := memberships }])

/-- Where the goroutine of `getGroups` is after the cycles run so far. -/
inductive LoopState where
  | sleeping
  | returned
  deriving DecidableEq, Repr

structure RefreshResult where
  groupCache : GroupCache
  printed : List String
  state : LoopState

/-- The function `getGroups`, run on the answers the directory gives in the
successive cycles (one cycle a minute): each iteration of the outer loop takes
the next answers; a `return` ends the goroutine and leaves the later answers
unused. -/
def getGroups : List CycleResponse → GroupCache → RefreshResult
  | [], groupCache => ⟨groupCache, [], .sleeping⟩
  | cycle :: later, groupCache =>
    match cycle.GroupsList with
    | .error err => ⟨groupCache, [err], .returned⟩
    | .ok groups =>
      match getGroupsMemberships cycle groups [] with
      | .error err => ⟨groupCache, [err], .returned⟩
      | .ok cacheGroups => getGroups later (groupCache.Set cacheKeyGroups cacheGroups)

/-! ## Concrete collaborators and inputs used in the evaluations -/

/-- The user every lookup of `calmEnv` answers with. -/
def bob : User := { ID := "U2", Profile := { Email := "bob@x.com" } }

/-- Collaborators that answer every call without error: posts succeed, every
user lookup finds `bob`, the directory returns operations that are done, and
the response of a finished operation decodes to the membership it names. -/
def calmEnv : Env :=
  { PostMessage := fun _ _ => none
    PostEphemeral := fun _ _ _ => none
    GetUserInfo := fun _ => .ok bob
    GetUserByEmail := fun _ => .ok bob
    MembershipsCreate := fun _ _ => .ok { Done := true, Response := "groups/G2/memberships/M" }
    MembershipsDelete := fun _ => .ok { Done := true }
    unmarshalMembership := fun r => .ok { Name := r, PreferredMemberKey := { Id := "bob@x.com" } }
    groupCache := []
    approverGroupID := "S0" }

/-- A callback of requester `U1` in channel `C1` with the given state and
pressed element. -/
def callbackOf (values : String → String → BlockAction) (action : BlockAction) :
    InteractionCallback :=
  { CallbackID := "cb", ResponseURL := "https://hooks/r", User := { ID := "U1" },
    Channel := { ID := "C1" }, BlockActionState := { Values := values },
    ActionCallback := { BlockActions := [action] } }

/-- A submission of the select-nominee step with no user selected. -/
def emptyUserSubmission : InteractionCallback :=
  callbackOf (fun _ _ => {}) { ActionID := submitSelectingUserActionID }

/-- A state of the group-and-expiration step whose two selected options carry
a text and an empty value. -/
def emptyValueState : String → String → BlockAction := fun _ actionID =>
  if actionID == selectGroupActionID then
    { SelectedOption := { Text := some (NewTextBlockObject PlainTextType "G2" false false),
                          Value := "" } }
  else if actionID == selectExpirationActionID then
    { SelectedOption := { Text := some (NewTextBlockObject PlainTextType "6h" false false),
                          Value := "" } }
  else {}

/-- The pressed submit button of the group-and-expiration step for `bob`. -/
def submitForBob : BlockAction := { ActionID := submitAddingUserActionID, Value := "bob@x.com" }

/-- A state of the group-and-expiration step with a group chosen and the
expiration menu left unset, as the chat platform reports a menu nothing was
chosen from. -/
def unsetExpirationState : String → String → BlockAction := fun _ actionID =>
  if actionID == selectGroupActionID then
    { SelectedOption := { Text := some (NewTextBlockObject PlainTextType "G2" false false),
                          Value := "groups/G2" } }
  else {}

/-- The request of scenario B and C: nominee bob@x.com, group G2, six hours,
requested by `U1`. -/
def requestR : requestMemberShip :=
  { AddingUserEmail := "bob@x.com", AddingUserID := "U2", GroupID := "groups/G2",
    GroupName := "G2", Expiration := 6, RequestedUserID := "U1" }

def payloadR : String := buttonValueOf "bob@x.com" "U2" "groups/G2" "G2" "6" "U1"

/-- The membership `addUserToGroup` asks the directory to create for `requestR`. -/
def membershipR : Membership :=
  { PreferredMemberKey := { Id := "bob@x.com" }, Roles := [{ Name := "MEMBER" }] }

/-- A directory whose create operation is done and carries an error. -/
def failedOperationEnv : Env :=
  { calmEnv with
    MembershipsCreate := fun _ _ =>
      .ok { Done := true, Error := some { Message := "Error(4003): permission denied" } } }

/-- A directory whose create call itself fails. -/
def createFailsEnv : Env :=
  { calmEnv with MembershipsCreate := fun _ _ => .error "googleapi: Error 403: forbidden" }

/-- A directory that returns its operations before they are done. -/
def pendingOperationEnv : Env :=
  { calmEnv with
    MembershipsCreate := fun _ _ => .ok { Done := false }
    MembershipsDelete := fun _ => .ok { Done := false } }

/-- A chat platform on which deleting the original message fails. -/
def deleteFailsEnv : Env :=
  { calmEnv with
    PostMessage := fun _ options =>
      if options == [MsgOption.DeleteOriginal "https://hooks/r"] then some "channel_not_found"
      else none }

def groupG1 : Group := { Name := "groups/G1", DisplayName := "G1" }
def groupG2 : Group := { Name := "groups/G2", DisplayName := "G2" }

/-- A cycle in which the listing of the groups fails. -/
def failingCycle : CycleResponse :=
  { GroupsList := .error "googleapi: Error 503", MembershipsList := fun _ => .ok [] }

/-- A cycle in which every listing succeeds. -/
def cycleOf (groups : List Group) : CycleResponse :=
  { GroupsList := .ok groups, MembershipsList := fun _ => .ok [] }

/-- An approver `UA` pressing a button that carries `payload`. -/
def approverCallback (actionID payload : String) : InteractionCallback :=
  { CallbackID := "cb", ResponseURL := "https://hooks/r", User := { ID := "UA" },
    Channel := { ID := "C1" },
    ActionCallback := { BlockActions := [{ ActionID := actionID, Value := payload }] } }

/-- A clock reading: 4 November 2026, 00:00 UTC, in nanoseconds of Unix time. -/
def clock2026 : Int := 1793750400000000000

/-- The remainder of a successful string read is no longer than `n`. -/
def RestWithin (x : Option (List Char × List Char)) (n : Nat) : Prop :=
  ∀ s r, x = some (s, r) → r.length ≤ n

/-- The remainder of a successful read of a number or literal is no longer
than `n`. -/
def TailWithin (x : Option (List Char)) (n : Nat) : Prop :=
  ∀ r, x = some r → r.length ≤ n

/-- The remainder of a successful scan is no longer than `n`. -/
def OkWithin (x : Except String (JVal × List Char)) (n : Nat) : Prop :=
  ∀ v r, x = .ok (v, r) → r.length ≤ n

/-- The fuel a scan of `cs` in mode `m` cannot use up: two units a character,
and one more where the scanner looks at an array before its first element. -/
def fuelBound (m : ScanMode) (cs : List Char) : Nat :=
  match m with
  | .elemsOpen => 2 * cs.length + 1
  | _ => 2 * cs.length

/-- A character that stands for itself inside a JSON string: no double quote,
no backslash, no control character. -/
def plainChar (c : Char) : Bool :=
  c != '"' && c != '\\' && decide (0x20 ≤ c.toNat)

/-- A text made of such characters only. -/
def plainText (s : String) : Bool := s.data.all plainChar

/-- The characters of one object member with a string value: the quoted key,
a colon, the quoted value, and what follows. -/
def memberChars (k v rest : List Char) : List Char :=
  '"' :: (k ++ '"' :: ':' :: '"' :: (v ++ '"' :: rest))

/-- The characters of the remaining members of an object, each after its
comma, and the closing brace. -/
def restChars : List (List Char × List Char) → List Char
  | [] => ['\x7d']
  | (k, v) :: kvs => ',' :: memberChars k v (restChars kvs)

/-- Recognises a post whose blocks hold an action block with an element that
satisfies `p`. -/
def postsElement (p : BlockElement → Bool) : Effect → Bool
  | .PostMessage _ options =>
    options.any (fun o =>
      match o with
      | .Blocks blocks =>
        blocks.any (fun b =>
          match b with
          | .actionBlock _ elements => elements.any p
          | _ => false)
      | _ => false)
  | _ => false

/-- The post of the group-and-expiration prompt: it holds the group menu. -/
def isGroupAndExpirationPrompt : Effect → Bool :=
  postsElement (fun e =>
    match e with
    | .optionsSelect _ _ actionID _ _ => actionID == selectGroupActionID
    | _ => false)

/-- The post of the select-nominee prompt: it holds the user menu. -/
def isSelectNomineePrompt : Effect → Bool :=
  postsElement (fun e =>
    match e with
    | .optionsSelect _ _ actionID _ _ => actionID == selectUserActionID
    | _ => false)

/-- The post of an approval request: it holds the Allow button. -/
def isApprovalRequest : Effect → Bool :=
  postsElement (fun e =>
    match e with
    | .button actionID _ _ _ => actionID == allowAddingUserActionID
    | _ => false)

/-- The eligibility condition in the spec's words: the membership list of the
group contains no membership keyed by the email. -/
def notYetMember (userEmail : String) (g : cacheGroup) : Bool :=
  decide (∀ ms ∈ g.memberShips, ms.MemberKey.Id ≠ userEmail)

/-! ## Theorems -/

theorem isUserAlreadyExistedInGroup_iff (userEmail : String) (mss : List Membership) :
    isUserAlreadyExistedInGroup userEmail mss = true ↔
      ∃ ms ∈ mss, ms.MemberKey.Id = userEmail := by
  induction mss with
  | nil => simp [isUserAlreadyExistedInGroup]
  | cons ms mss ih =>
    by_cases h : userEmail = ms.MemberKey.Id
    · simp [isUserAlreadyExistedInGroup, h]
    · have h2 : ¬ ms.MemberKey.Id = userEmail := fun e => h e.symm
      simp [isUserAlreadyExistedInGroup, h, h2, ih]

theorem buildSelectableGroupObjectsLoop_eq (userEmail : String) (groups : List cacheGroup)
    (objects : List OptionBlockObject) :
    buildSelectableGroupObjectsLoop userEmail groups objects =
      objects ++ (groups.filter
        (notYetMember userEmail)).map groupOption := by
  induction groups generalizing objects with
  | nil => simp [buildSelectableGroupObjectsLoop]
  | cons g groups ih =>
    by_cases h : isUserAlreadyExistedInGroup userEmail g.memberShips = true
    · have h2 : ¬ notYetMember userEmail g = true := by
        have := (isUserAlreadyExistedInGroup_iff userEmail g.memberShips).1 h
        simpa [notYetMember] using this
      rw [List.filter_cons_of_neg h2]
      simp only [buildSelectableGroupObjectsLoop, h, ih]
      simp
    · have h2 : notYetMember userEmail g = true := by
        rw [notYetMember, decide_eq_true_eq]
        intro ms hms e
        exact h ((isUserAlreadyExistedInGroup_iff userEmail g.memberShips).2 ⟨ms, hms, e⟩)
      have h3 : isUserAlreadyExistedInGroup userEmail g.memberShips = false := by
        simpa using h
      rw [List.filter_cons_of_pos h2]
      simp only [buildSelectableGroupObjectsLoop, h3, ih]
      simp [groupOption, NewOptionBlockObject, NewTextBlockObject, PlainTextType]

/-- C1: `buildSelectableGroupObjects` returns, with a nil error, the options
(group name as value, display name as text) of exactly those groups of the
stored snapshot none of whose memberships has a `MemberKey.Id` equal to the
email, in snapshot order; every option it returns stems from a group that does
not have the email as a member; without a stored snapshot the result is empty;
and for the snapshot [G1 with member alice@x.com, G2 without members] and
alice@x.com the result is [G2]. -/
theorem buildSelectableGroupObjects_eligible (groupCache : GroupCache) (userEmail : String) :
    buildSelectableGroupObjects groupCache userEmail =
        ((((groupCache.Get cacheKeyGroups).getD []).filter
          (notYetMember userEmail)).map groupOption,
         none)
      ∧ (∀ o ∈ (buildSelectableGroupObjects groupCache userEmail).1,
          ∃ g ∈ (groupCache.Get cacheKeyGroups).getD [], o = groupOption g ∧
            ¬ ∃ ms ∈ g.memberShips, ms.MemberKey.Id = userEmail)
      ∧ (groupCache.Get cacheKeyGroups = none →
          buildSelectableGroupObjects groupCache userEmail = ([], none))
      ∧ buildSelectableGroupObjects
          (GroupCache.Set [] cacheKeyGroups
            [ { name := "groups/G1", displayName := "G1",
                memberShips := [{ Name := "groups/G1/memberships/1",
                                  MemberKey := { Id := "alice@x.com" } }] },
              { name := "groups/G2", displayName := "G2", memberShips := [] } ])
          "alice@x.com"
        = ([{ Text := some { Type_ := "plain_text", Text := "G2", Emoji := false, Verbatim := false },
              Value := "groups/G2" }], none) := by
  have main : buildSelectableGroupObjects groupCache userEmail =
        ((((groupCache.Get cacheKeyGroups).getD []).filter
          (notYetMember userEmail)).map groupOption,
         none) := by
    unfold buildSelectableGroupObjects
    cases h : groupCache.Get cacheKeyGroups with
    | none => simp
    | some groups => simp [buildSelectableGroupObjectsLoop_eq]
  refine ⟨main, ?_, ?_, ?_⟩
  · intro o ho
    rw [main] at ho
    simp only [List.mem_map, List.mem_filter, notYetMember, decide_eq_true_eq] at ho
    obtain ⟨g, ⟨hg, hfree⟩, rfl⟩ := ho
    refine ⟨g, hg, rfl, ?_⟩
    rintro ⟨ms, hms, hid⟩
    exact hfree ms hms hid
  · intro h
    rw [main, h]
    simp
  · decide


/-! ### The validation of the two submit steps -/

/-- C10: at a select-nominee submission with no user selected, on a chat
platform whose user lookup answers with a user, `caseSubmitSelectingUser` posts
the select-nominee prompt with the validation notice, goes on to look up the
empty user id and posts the group-and-expiration prompt. -/
theorem caseSubmitSelectingUser_empty_advances :
    (emptyUserSubmission.BlockActionState.Values addUserBlockID selectUserActionID).SelectedUser = ""
      ∧ caseSubmitSelectingUser calmEnv emptyUserSubmission =
        ⟨(postMsgForSelectingUser calmEnv "cb" "U1"
            [.ReplaceOriginal "https://hooks/r", .Attachments [validationNotice]]).1
          ++ [.GetUserInfo ""]
          ++ (postMsgForSelectingGroupAndExpiration calmEnv "C1" "U1" bob
            [.ReplaceOriginal "https://hooks/r"]).1,
         .ret .next⟩
      ∧ (caseSubmitSelectingUser calmEnv emptyUserSubmission).effects.map isSelectNomineePrompt
          = [true, false, false]
      ∧ (caseSubmitSelectingUser calmEnv emptyUserSubmission).effects.map isGroupAndExpirationPrompt
          = [false, false, true] := by
  refine ⟨rfl, rfl, ?_, ?_⟩
  · decide
  · decide

/-- C2: at a submission of the group-and-expiration step whose selected group
and expiration values are empty, `caseSubmitAddingUser` posts the prompt with
the validation notice and then goes on to post the approval request with the
Allow and the Deny button, carrying a payload with an empty group and an empty
expiration.  When the expiration menu was left unset, so that its option has
no text, the same fall-through ends in a nil dereference after the prompt. -/
theorem caseSubmitAddingUser_empty_posts_request :
    (emptyValueState addUserBlockID selectGroupActionID).SelectedOption.Value = ""
      ∧ (emptyValueState addUserBlockID selectExpirationActionID).SelectedOption.Value = ""
      ∧ caseSubmitAddingUser calmEnv (callbackOf emptyValueState submitForBob) submitForBob =
        ⟨[.GetUserByEmail "bob@x.com"]
          ++ (postMsgForSelectingGroupAndExpiration calmEnv "C1" "U1" bob
              [.Attachments [validationNotice], .ReplaceOriginal "https://hooks/r"]).1
          ++ [.PostMessage "C1"
                (approvalRequest (approvalQuestion "U1" "S0" "U2" "G2" "6h")
                  (buttonValueOf "bob@x.com" "U2" "" "G2" "" "U1")),
              .PostEphemeral "C1" "U1"
                [.Attachments [{ Text := "Your request has been successfully sent. It is awaiting approval from <@U1> :white_check_mark:",
                                 Color := AttachmentGoodColor }],
                 .PostEphemeral "U1", .ReplaceOriginal "https://hooks/r"]],
         .ret .next⟩
      ∧ (caseSubmitAddingUser calmEnv (callbackOf emptyValueState submitForBob)
            submitForBob).effects.map isApprovalRequest = [false, false, true, false]
      ∧ (unsetExpirationState addUserBlockID selectExpirationActionID).SelectedOption
          = { Text := none, Value := "" }
      ∧ caseSubmitAddingUser calmEnv (callbackOf unsetExpirationState submitForBob) submitForBob =
        ⟨[.GetUserByEmail "bob@x.com"]
          ++ (postMsgForSelectingGroupAndExpiration calmEnv "C1" "U1" bob
              [.Attachments [validationNotice], .ReplaceOriginal "https://hooks/r"]).1,
         .panic nilDereference⟩ := by
  refine ⟨rfl, rfl, rfl, ?_, rfl, rfl⟩
  decide

/-! ### The wait loops -/

theorem addUserToGroupWait_not_done (env : Env) (rms : requestMemberShip) (approvedUserID : String)
    (err : Option String) (o : Operation) (h : o.Done = false) (fuel : Nat) :
    addUserToGroupWait env rms approvedUserID err o fuel = ⟨[], .spin⟩ := by
  induction fuel with
  | zero => rfl
  | succ n ih => simp [addUserToGroupWait, h, ih]

theorem removeMemberShipWait_not_done (ms : Membership) (o : Operation) (h : o.Done = false)
    (fuel : Nat) : removeMemberShipWait ms o fuel = ⟨[], .spin⟩ := by
  induction fuel with
  | zero => rfl
  | succ n ih => simp [removeMemberShipWait, h, ih]

theorem jsonUnmarshal_payloadR : jsonUnmarshal payloadR = .ok requestR := by rfl

/-- C9: with a directory that returns an operation before it is done, the wait
loop of `addUserToGroup` and the one of `removeMemberShipOnCacheEvicted` are
still running after any number of iterations: the one directory call each
function makes is the call that created the operation, the operation is never
asked again, and neither function returns. -/
theorem wait_loops_never_return (fuel : Nat) :
    addUserToGroup pendingOperationEnv fuel { Value := payloadR } "UA" =
        ⟨[.MembershipsCreate "groups/G2" membershipR], .spin⟩
      ∧ removeMemberShipOnCacheEvicted pendingOperationEnv fuel "groups/G2/memberships/M"
          { Name := "groups/G2/memberships/M" } =
        ⟨[.MembershipsDelete "groups/G2/memberships/M"], .spin⟩ := by
  constructor
  · simp only [addUserToGroup, jsonUnmarshal_payloadR, pendingOperationEnv]
    rw [addUserToGroupWait_not_done _ _ _ _ _ rfl]
    rfl
  · simp only [removeMemberShipOnCacheEvicted, pendingOperationEnv]
    rw [removeMemberShipWait_not_done _ _ rfl]

/-- C5: when the create operation is done and carries an error,
`addUserToGroup` evaluates `err.Error()` on the nil `err` of the create call
and panics: it returns neither the error flag nor a failure message.  (When
the create call itself fails, the function returns the failure message with
the flag set; in both cases nothing is written to the store.) -/
theorem addUserToGroup_operation_error_panics (fuel : Nat) :
    addUserToGroup failedOperationEnv (fuel + 1) { Value := payloadR } "UA" =
        ⟨[.MembershipsCreate "groups/G2" membershipR], .panic nilDereference⟩
      ∧ addUserToGroup createFailsEnv fuel { Value := payloadR } "UA" =
        ⟨[.MembershipsCreate "groups/G2" membershipR],
         .ret (approvedButFailed "U1" "UA" "googleapi: Error 403: forbidden", true)⟩ := by
  constructor
  · simp only [addUserToGroup, jsonUnmarshal_payloadR, failedOperationEnv]
    rfl
  · simp only [addUserToGroup, jsonUnmarshal_payloadR, createFailsEnv]
    rfl

/-! ### The refresh loop -/

/-- C6: when the first cycle fails and the directory would answer the second
one, `getGroups` has returned after the first: no snapshot is stored.  Likewise
a failing cycle after a good one ends the loop, and the snapshot of a later
good cycle is never stored. -/
theorem getGroups_stops_at_first_error :
    ((getGroups [failingCycle, cycleOf [groupG2]] []).groupCache.Get cacheKeyGroups = none
        ∧ (getGroups [failingCycle, cycleOf [groupG2]] []).state = .returned)
      ∧ ((getGroups [cycleOf [groupG1], failingCycle, cycleOf [groupG2]] []).groupCache.Get
            cacheKeyGroups
          = some [{ name := "groups/G1", displayName := "G1", memberShips := [] }]
        ∧ (getGroups [cycleOf [groupG1], failingCycle, cycleOf [groupG2]] []).state = .returned) := by
  refine ⟨⟨rfl, rfl⟩, rfl, rfl⟩

/-! ### Denying a request -/

/-- C8 (as stated, refuted): the payload of the request decodes, but on a chat
platform where deleting the original message fails the deny case returns after
logging that error and posts no denial notice. -/
theorem caseDenyAddingUser_delete_fails_no_notice :
    jsonUnmarshal payloadR = .ok requestR
      ∧ caseDenyAddingUser deleteFailsEnv (approverCallback denyAddingUserActionID payloadR)
          { ActionID := denyAddingUserActionID, Value := payloadR } =
        ⟨[.PostMessage "C1" [.DeleteOriginal "https://hooks/r"], .Debugf "channel_not_found"],
         .ret .exit⟩
      ∧ Effect.PostMessage "C1" (denialNotice requestR "UA") ∉
          (caseDenyAddingUser deleteFailsEnv (approverCallback denyAddingUserActionID payloadR)
            { ActionID := denyAddingUserActionID, Value := payloadR }).effects := by
  refine ⟨rfl, rfl, ?_⟩
  decide

/-- C8 (amended): whatever the payload and the collaborators, the deny case
issues no CreateMembership and no DeleteMembership call and leaves the Grant
Expiry Store as it was; and when deleting the original message succeeded and
the payload decodes, its effects are that deletion followed by the post of one
denial notice naming the requester, the approver, the nominee and the group
(followed at most by the log of that post's error). -/
theorem caseDenyAddingUser_frame_and_notice (env : Env) (callback : InteractionCallback)
    (action : BlockAction) :
    ((caseDenyAddingUser env callback action).effects.filter isMembershipsCreate = []
        ∧ (caseDenyAddingUser env callback action).effects.filter isMembershipsDelete = []
        ∧ ∀ (now : Int) (store : MemberShipCache),
            storeAfter now store (caseDenyAddingUser env callback action).effects = store)
      ∧ ∀ rms : requestMemberShip,
          env.PostMessage callback.Channel.ID [.DeleteOriginal callback.ResponseURL] = none →
          jsonUnmarshal action.Value = .ok rms →
          ∃ tail : List Effect,
            (caseDenyAddingUser env callback action).effects =
              [.PostMessage callback.Channel.ID [.DeleteOriginal callback.ResponseURL],
               .PostMessage callback.Channel.ID
                 [.Attachments [
                   { Text := "Request of <@" ++ rms.RequestedUserID ++ "> is denied by <@"
                       ++ callback.User.ID ++ ">.\n<@" ++ rms.AddingUserID
                       ++ "> did not join `" ++ rms.GroupName ++ "` group.",
                     Color := "danger" }]]] ++ tail
            ∧ (tail = [] ∨ ∃ err, tail = [.Debugf err]) := by
  constructor
  · cases h1 : env.PostMessage callback.Channel.ID [.DeleteOriginal callback.ResponseURL] with
    | some err => simp [caseDenyAddingUser, h1, isMembershipsCreate, isMembershipsDelete, storeAfter]
    | none =>
      cases h2 : jsonUnmarshal action.Value with
      | error err =>
        simp [caseDenyAddingUser, h1, h2, isMembershipsCreate, isMembershipsDelete, storeAfter]
      | ok rms =>
        cases h3 : env.PostMessage callback.Channel.ID (denialNotice rms callback.User.ID) with
        | some err =>
          simp [caseDenyAddingUser, h1, h2, h3, isMembershipsCreate, isMembershipsDelete, storeAfter]
        | none =>
          simp [caseDenyAddingUser, h1, h2, h3, isMembershipsCreate, isMembershipsDelete, storeAfter]
  · intro rms h1 h2
    have hn : denialNotice rms callback.User.ID =
        [.Attachments [
          { Text := "Request of <@" ++ rms.RequestedUserID ++ "> is denied by <@"
              ++ callback.User.ID ++ ">.\n<@" ++ rms.AddingUserID
              ++ "> did not join `" ++ rms.GroupName ++ "` group.",
            Color := "danger" }]] := rfl
    rw [← hn]
    cases h3 : env.PostMessage callback.Channel.ID (denialNotice rms callback.User.ID) with
    | some err =>
      refine ⟨[.Debugf err], ?_, Or.inr ⟨err, rfl⟩⟩
      simp [caseDenyAddingUser, h1, h2, h3]
    | none =>
      refine ⟨[], ?_, Or.inl rfl⟩
      simp [caseDenyAddingUser, h1, h2, h3]

/-- C8, scenario B: denying the request for bob@x.com, group G2 and six hours
makes no directory call, leaves the store alone and posts the denial notice. -/
theorem caseDenyAddingUser_frame_and_notice_witness :
    (∀ (now : Int) (store : MemberShipCache),
        storeAfter now store
          (caseDenyAddingUser calmEnv (approverCallback denyAddingUserActionID payloadR)
            { ActionID := denyAddingUserActionID, Value := payloadR }).effects = store)
      ∧ ∃ tail : List Effect,
          (caseDenyAddingUser calmEnv (approverCallback denyAddingUserActionID payloadR)
            { ActionID := denyAddingUserActionID, Value := payloadR }).effects =
            [.PostMessage "C1" [.DeleteOriginal "https://hooks/r"],
             .PostMessage "C1"
               [.Attachments [
                 { Text := "Request of <@" ++ "U1" ++ "> is denied by <@" ++ "UA" ++ ">.\n<@" ++ "U2"
                     ++ "> did not join `" ++ "G2" ++ "` group.",
                   Color := "danger" }]]] ++ tail
          ∧ (tail = [] ∨ ∃ err, tail = [.Debugf err]) :=
  ⟨(caseDenyAddingUser_frame_and_notice calmEnv
      (approverCallback denyAddingUserActionID payloadR)
      { ActionID := denyAddingUserActionID, Value := payloadR }).1.2.2,
   (caseDenyAddingUser_frame_and_notice calmEnv
      (approverCallback denyAddingUserActionID payloadR)
      { ActionID := denyAddingUserActionID, Value := payloadR }).2 requestR rfl rfl⟩

/-! ### Approving a request -/

theorem durationHours_of_fit (h : Int) (h1 : 1 ≤ h) (h2 : h * 3600 * 10 ^ 9 < 2 ^ 63) :
    durationHours h = h * 3600 * 10 ^ 9 := by
  unfold durationHours wrapInt64 Hour
  norm_num at h2 ⊢
  omega

theorem wrapInt64_of_fit (z : Int) (h1 : 0 ≤ z) (h2 : z < 2 ^ 63) : wrapInt64 z = z := by
  unfold wrapInt64
  norm_num at h2 ⊢
  omega

/-- A key set with a positive duration whose expiry instant fits 64 bits is
found with exactly that instant. -/
theorem lookup_Set_of_fit (c : MemberShipCache) (now : Int) (k : String) (x : Membership)
    (d : Int) (hnow : 0 ≤ now) (hd : 0 < d) (hfit : now + d < 2 ^ 63) :
    (c.Set now k x d).lookup k = some { Object := x, Expiration := now + d } := by
  have hne : (d == DefaultExpiration) = false := by
    simp only [DefaultExpiration, beq_eq_false_iff_ne, ne_eq]
    omega
  have hw : wrapInt64 (now + d) = now + d := wrapInt64_of_fit _ (by omega) hfit
  simp [MemberShipCache.Set, hne, hd, hw, List.lookup]

theorem addUserToGroupWait_no_create (env : Env) (rms : requestMemberShip)
    (approvedUserID : String) (err : Option String) (o : Operation) (fuel : Nat) :
    (addUserToGroupWait env rms approvedUserID err o fuel).effects.filter isMembershipsCreate
      = [] := by
  induction fuel with
  | zero => rfl
  | succ n ih =>
    unfold addUserToGroupWait
    by_cases hd : o.Done = true
    · cases he : o.Error with
      | some st =>
        cases hx : errError err with
        | ret detail => simp [hd, he, hx]
        | panic msg => simp [hd, he, hx]
        | spin => simp [hd, he, hx]
      | none =>
        cases hu : env.unmarshalMembership o.Response with
        | error e => simp [hd, he, hu]
        | ok ms => simp [hd, he, hu, isMembershipsCreate]
    · simpa [hd] using ih

/-- The offered hours fit at every clock reading that is more than 24 hours
before the end of the 64-bit range. -/
theorem offered_hours_fit (now h : Int) (hh : h = 1 ∨ h = 6 ∨ h = 12 ∨ h = 24)
    (hnow : now + 24 * 3600 * 10 ^ 9 < 2 ^ 63) : now + h * 3600 * 10 ^ 9 < 2 ^ 63 := by
  rcases hh with rfl | rfl | rfl | rfl <;> norm_num at hnow ⊢ <;> omega

/-- C4 (as stated, refuted): a payload whose expiration is 2562048 hours
decodes, the create operation succeeds, and the record is set with a negative
duration, which is not 2562048 hours and with which the store keeps the record
without expiry.  And for 2562047 hours, whose duration fits 64 bits, the
expiry instant the store computes from the clock of 4 November 2026 wraps
around to a negative value, so that record never expires either. -/
theorem addUserToGroup_ttl_overflow :
    (jsonUnmarshal (buttonValueOf "bob@x.com" "U2" "groups/G2" "G2" "2562048" "U1") =
          .ok { requestR with Expiration := 2562048 }
        ∧ (addUserToGroup calmEnv 1
            { Value := buttonValueOf "bob@x.com" "U2" "groups/G2" "G2" "2562048" "U1" } "UA").effects =
          [.MembershipsCreate "groups/G2" membershipR,
           .memberShipCacheSet "groups/G2/memberships/M"
             { Name := "groups/G2/memberships/M", PreferredMemberKey := { Id := "bob@x.com" } }
             (-9223371273709551616)]
        ∧ (-9223371273709551616 : Int) ≠ 2562048 * 3600 * 10 ^ 9
        ∧ ((storeAfter clock2026 []
              (addUserToGroup calmEnv 1
                { Value := buttonValueOf "bob@x.com" "U2" "groups/G2" "G2" "2562048" "U1" }
                "UA").effects).lookup "groups/G2/memberships/M").map
            (fun item => item.lifetime clock2026) = some none)
      ∧ (jsonUnmarshal (buttonValueOf "bob@x.com" "U2" "groups/G2" "G2" "2562047" "U1") =
          .ok { requestR with Expiration := 2562047 }
        ∧ (addUserToGroup calmEnv 1
            { Value := buttonValueOf "bob@x.com" "U2" "groups/G2" "G2" "2562047" "U1" } "UA").effects =
          [.MembershipsCreate "groups/G2" membershipR,
           .memberShipCacheSet "groups/G2/memberships/M"
             { Name := "groups/G2/memberships/M", PreferredMemberKey := { Id := "bob@x.com" } }
             (2562047 * 3600 * 10 ^ 9)]
        ∧ (storeAfter clock2026 []
              (addUserToGroup calmEnv 1
                { Value := buttonValueOf "bob@x.com" "U2" "groups/G2" "G2" "2562047" "U1" }
                "UA").effects).lookup "groups/G2/memberships/M"
            = some { Object := { Name := "groups/G2/memberships/M",
                                 PreferredMemberKey := { Id := "bob@x.com" } },
                     Expiration := -7429624473709551616 }
        ∧ ((storeAfter clock2026 []
              (addUserToGroup calmEnv 1
                { Value := buttonValueOf "bob@x.com" "U2" "groups/G2" "G2" "2562047" "U1" }
                "UA").effects).lookup "groups/G2/memberships/M").map
            (fun item => item.lifetime clock2026) = some none) := by
  refine ⟨⟨rfl, rfl, by decide, rfl⟩, rfl, rfl, rfl, rfl⟩

/-- C4 (amended): for a payload that decodes to a request for group g, nominee
e and h hours, `addUserToGroup` issues exactly one CreateMembership call, for
g, with member key e and the single role MEMBER; and when that operation is
done without error, its response decodes to a membership M, h >= 1, and the
expiry instant, h hours after the clock reading `now` of the insertion
(`now >= 0`, nanoseconds of Unix time), fits a signed 64-bit number of
nanoseconds (`now + h * 3600 * 10^9 < 2^63`, which the offered 1, 6, 12 and 24
satisfy at every clock reading more than 24 hours before the end of that
range, in the year 2262), the function sets M
under key M.Name with a duration of exactly h * 3600 * 10^9 nanoseconds, the
store holds M under M.Name with the expiry instant `now + h * 3600 * 10^9`,
that is with exactly h hours to live, and the function returns the success
message with the error flag false. -/
theorem addUserToGroup_grants (env : Env) (fuel : Nat) (blockAction : BlockAction)
    (approvedUserID : String) (rms : requestMemberShip)
    (hdec : jsonUnmarshal blockAction.Value = .ok rms) :
    (addUserToGroup env fuel blockAction approvedUserID).effects.filter isMembershipsCreate =
        [.MembershipsCreate rms.GroupID
          { Name := "", MemberKey := { Id := "" },
            PreferredMemberKey := { Id := rms.AddingUserEmail }, Roles := [{ Name := "MEMBER" }] }]
      ∧ ∀ (o : Operation) (M : Membership) (now : Int),
          env.MembershipsCreate rms.GroupID
              { PreferredMemberKey := { Id := rms.AddingUserEmail }, Roles := [{ Name := "MEMBER" }] }
            = .ok o →
          o.Done = true → o.Error = none → env.unmarshalMembership o.Response = .ok M →
          1 ≤ rms.Expiration → 0 ≤ now → now + rms.Expiration * 3600 * 10 ^ 9 < 2 ^ 63 →
          addUserToGroup env (fuel + 1) blockAction approvedUserID =
              ⟨[.MembershipsCreate rms.GroupID
                  { PreferredMemberKey := { Id := rms.AddingUserEmail },
                    Roles := [{ Name := "MEMBER" }] },
                .memberShipCacheSet M.Name M (rms.Expiration * 3600 * 10 ^ 9)],
               .ret (approvedAndProcessed rms approvedUserID, false)⟩
            ∧ ∀ store : MemberShipCache,
                (storeAfter now store (addUserToGroup env (fuel + 1) blockAction
                    approvedUserID).effects).lookup M.Name
                  = some { Object := M, Expiration := now + rms.Expiration * 3600 * 10 ^ 9 }
                ∧ Item.lifetime { Object := M, Expiration := now + rms.Expiration * 3600 * 10 ^ 9 } now
                  = some (rms.Expiration * 3600 * 10 ^ 9) := by
  constructor
  · unfold addUserToGroup
    rw [hdec]
    cases hc : env.MembershipsCreate rms.GroupID
        { PreferredMemberKey := { Id := rms.AddingUserEmail }, Roles := [{ Name := "MEMBER" }] } with
    | error e => simp [hc, isMembershipsCreate]
    | ok o =>
      simp [hc, isMembershipsCreate, addUserToGroupWait_no_create]
  · intro o M now hc hd he hu h1 hnow hfit
    have hpos : 0 < rms.Expiration * 3600 * 10 ^ 9 := by
      have : (0 : Int) < 3600 * 10 ^ 9 := by norm_num
      nlinarith
    have hdur := durationHours_of_fit rms.Expiration h1 (by omega)
    have hrun : addUserToGroup env (fuel + 1) blockAction approvedUserID =
        ⟨[.MembershipsCreate rms.GroupID
            { PreferredMemberKey := { Id := rms.AddingUserEmail },
              Roles := [{ Name := "MEMBER" }] },
          .memberShipCacheSet M.Name M (rms.Expiration * 3600 * 10 ^ 9)],
         .ret (approvedAndProcessed rms approvedUserID, false)⟩ := by
      unfold addUserToGroup
      rw [hdec]
      simp [hc, addUserToGroupWait, hd, he, hu, hdur]
    refine ⟨hrun, fun store => ⟨?_, ?_⟩⟩
    · rw [hrun]
      simp only [storeAfter]
      exact lookup_Set_of_fit store now M.Name M _ hnow hpos hfit
    · have hexp : now + rms.Expiration * 3600 * 10 ^ 9 > 0 := by omega
      simp only [Item.lifetime]
      rw [if_pos hexp]
      congr 1
      omega

/-- C4, scenario C: approving the request for bob@x.com, group G2 and six
hours on 4 November 2026 issues the create call, sets the returned membership
with a duration of six hours, and the store holds it with the expiry instant
six hours later. -/
theorem addUserToGroup_grants_witness :
    (addUserToGroup calmEnv 0 { Value := payloadR } "UA").effects.filter isMembershipsCreate =
        [.MembershipsCreate "groups/G2" membershipR]
      ∧ addUserToGroup calmEnv 1 { Value := payloadR } "UA" =
          ⟨[.MembershipsCreate "groups/G2" membershipR,
            .memberShipCacheSet "groups/G2/memberships/M"
              { Name := "groups/G2/memberships/M", PreferredMemberKey := { Id := "bob@x.com" } }
              (6 * 3600 * 10 ^ 9)],
           .ret (approvedAndProcessed requestR "UA", false)⟩
      ∧ (storeAfter clock2026 [] (addUserToGroup calmEnv 1 { Value := payloadR }
            "UA").effects).lookup "groups/G2/memberships/M"
          = some { Object := { Name := "groups/G2/memberships/M",
                               PreferredMemberKey := { Id := "bob@x.com" } },
                   Expiration := clock2026 + 6 * 3600 * 10 ^ 9 } :=
  ⟨(addUserToGroup_grants calmEnv 0 { Value := payloadR } "UA" requestR rfl).1,
   ((addUserToGroup_grants calmEnv 0 { Value := payloadR } "UA" requestR rfl).2
      { Done := true, Response := "groups/G2/memberships/M" }
      { Name := "groups/G2/memberships/M", PreferredMemberKey := { Id := "bob@x.com" } }
      clock2026 rfl rfl rfl rfl (by decide) (by decide) (by decide)).1,
   (((addUserToGroup_grants calmEnv 0 { Value := payloadR } "UA" requestR rfl).2
      { Done := true, Response := "groups/G2/memberships/M" }
      { Name := "groups/G2/memberships/M", PreferredMemberKey := { Id := "bob@x.com" } }
      clock2026 rfl rfl rfl rfl (by decide) (by decide) (by decide)).2 []).1⟩

/-! ### The scanner and its fuel -/

theorem restWithin_none (n : Nat) : RestWithin none n := by
  intro s r h; cases h

theorem restWithin_some (s r : List Char) (n : Nat) (h : r.length ≤ n) :
    RestWithin (some (s, r)) n := by
  intro s2 r2 h2
  cases h2
  exact h

theorem restWithin_consChar (c : Char) (x : Option (List Char × List Char)) (n : Nat)
    (h : RestWithin x n) : RestWithin (consChar c x) n := by
  cases x with
  | none => exact restWithin_none n
  | some p =>
    obtain ⟨s, r⟩ := p
    intro s2 r2 h2
    simp only [consChar, Option.some.injEq, Prod.mk.injEq] at h2
    exact h s r2 (by rw [h2.2])

theorem restWithin_flush (p : Option Nat) (x : Option (List Char × List Char)) (n : Nat)
    (h : RestWithin x n) : RestWithin (flush p x) n := by
  cases p with
  | none => exact h
  | some hi => exact restWithin_consChar _ x n h

theorem restWithin_mono (x : Option (List Char × List Char)) (m n : Nat)
    (h : RestWithin x m) (hmn : m ≤ n) : RestWithin x n :=
  fun s r hx => Nat.le_trans (h s r hx) hmn

theorem scanString_restWithin (n : Nat) :
    ∀ (p : Option Nat) (cs : List Char), cs.length ≤ n → RestWithin (scanString p cs) cs.length := by
  induction n with
  | zero =>
    intro p cs h
    have : cs = [] := List.length_eq_zero.1 (Nat.le_zero.1 h)
    subst this
    rw [scanString.eq_def]
    exact restWithin_none _
  | succ n ih =>
    intro p cs h
    rw [scanString.eq_def]
    cases cs with
    | nil => exact restWithin_none _
    | cons c cs =>
      simp only [List.length_cons] at h ⊢
      have hcs : cs.length ≤ n := by omega
      split
      · exact restWithin_flush _ _ _ (restWithin_some _ _ _ (by omega))
      · split
        · split
          · exact restWithin_none _
          · rename_i e r
            simp only [List.length_cons] at hcs
            split
            · split
              · rename_i a b c2 d r2
                simp only [List.length_cons] at hcs ⊢
                have h2 : RestWithin (scanString none r2) r2.length := ih none r2 (by omega)
                have h2m : RestWithin (scanString none r2) (r2.length + 1 + 1 + 1 + 1 + 1 + 1) :=
                  restWithin_mono _ _ _ h2 (by omega)
                split
                · exact restWithin_none _
                · rename_i rr hrr
                  have h3 : RestWithin (scanString (some rr) r2) (r2.length + 1 + 1 + 1 + 1 + 1 + 1) :=
                    restWithin_mono _ _ _ (ih (some rr) r2 (by omega)) (by omega)
                  split
                  · split
                    · exact restWithin_consChar _ _ _ h2m
                    · split
                      · exact restWithin_consChar _ _ _ h3
                      · exact restWithin_consChar _ _ _ (restWithin_consChar _ _ _ h2m)
                  · split
                    · exact h3
                    · exact restWithin_consChar _ _ _ h2m
              · exact restWithin_none _
            · split
              · exact restWithin_none _
              · exact restWithin_flush _ _ _ (restWithin_consChar _ _ _
                  (restWithin_mono _ _ _ (ih none r (by omega)) (by simp only [List.length_cons]; omega)))
        · split
          · exact restWithin_none _
          · exact restWithin_flush _ _ _ (restWithin_consChar _ _ _
              (restWithin_mono _ _ _ (ih none cs hcs) (by omega)))

theorem skipSpace_length_le (cs : List Char) : (skipSpace cs).length ≤ cs.length := by
  induction cs with
  | nil => simp [skipSpace]
  | cons c cs ih =>
    unfold skipSpace
    split
    · simp only [List.length_cons]; omega
    · exact Nat.le_refl _

theorem skipDigits_length_le (cs : List Char) : (skipDigits cs).length ≤ cs.length := by
  induction cs with
  | nil => simp [skipDigits]
  | cons c cs ih =>
    unfold skipDigits
    split
    · simp only [List.length_cons]; omega
    · exact Nat.le_refl _

theorem tailWithin_none (n : Nat) : TailWithin none n := by
  intro r h; cases h

theorem tailWithin_some (r : List Char) (n : Nat) (h : r.length ≤ n) : TailWithin (some r) n := by
  intro r2 h2
  cases h2
  exact h

theorem tailWithin_mono (x : Option (List Char)) (m n : Nat) (h : TailWithin x m) (hmn : m ≤ n) :
    TailWithin x n :=
  fun r hx => Nat.le_trans (h r hx) hmn

theorem scanDigits1_tailWithin (cs : List Char) : TailWithin (scanDigits1 cs) cs.length := by
  cases cs with
  | nil => exact tailWithin_none _
  | cons c cs =>
    simp only [scanDigits1, List.length_cons]
    split
    · exact tailWithin_some _ _ (Nat.le_trans (skipDigits_length_le cs) (Nat.le_succ _))
    · exact tailWithin_none _

theorem scanExponent_tailWithin (cs : List Char) : TailWithin (scanExponent cs) cs.length := by
  cases cs with
  | nil => exact tailWithin_some _ _ (Nat.le_refl _)
  | cons c cs =>
    simp only [scanExponent, List.length_cons]
    split
    · cases cs with
      | nil => exact tailWithin_none _
      | cons s r =>
        simp only [List.length_cons]
        split
        · exact tailWithin_mono _ _ _ (scanDigits1_tailWithin r) (by omega)
        · exact tailWithin_mono _ _ _ (scanDigits1_tailWithin (s :: r))
            (by simp only [List.length_cons]; omega)
    · exact tailWithin_some _ _ (by simp)

theorem scanFraction_tailWithin (cs : List Char) : TailWithin (scanFraction cs) cs.length := by
  cases cs with
  | nil => exact tailWithin_some _ _ (Nat.le_refl _)
  | cons c cs =>
    simp only [scanFraction, List.length_cons]
    split
    · split
      · rename_i r1 h1
        have a := scanDigits1_tailWithin cs r1 h1
        exact tailWithin_mono _ _ _ (scanExponent_tailWithin r1) (by omega)
      · exact tailWithin_none _
    · exact tailWithin_mono _ _ _ (scanExponent_tailWithin (c :: cs)) (by simp)

theorem scanNumberBody_tailWithin (cs : List Char) : TailWithin (scanNumberBody cs) cs.length := by
  cases cs with
  | nil => exact tailWithin_none _
  | cons c cs =>
    simp only [scanNumberBody, List.length_cons]
    split
    · exact tailWithin_mono _ _ _ (scanFraction_tailWithin cs) (by omega)
    · split
      · exact tailWithin_mono _ _ _ (scanFraction_tailWithin (skipDigits cs))
          (Nat.le_trans (skipDigits_length_le cs) (Nat.le_succ _))
      · exact tailWithin_none _

theorem dropPrefix_tailWithin (p cs : List Char) : TailWithin (dropPrefix? p cs) cs.length := by
  unfold dropPrefix?
  split
  · exact tailWithin_some _ _ (by simp)
  · exact tailWithin_none _

theorem okWithin_error (e : String) (n : Nat) : OkWithin (.error e) n := by
  intro v r h; cases h

theorem okWithin_ok (v : JVal) (r : List Char) (n : Nat) (h : r.length ≤ n) :
    OkWithin (.ok (v, r)) n := by
  intro v2 r2 h2
  cases h2
  exact h

theorem okWithin_mono (x : Except String (JVal × List Char)) (m n : Nat)
    (h : OkWithin x m) (hmn : m ≤ n) : OkWithin x n :=
  fun v r hx => Nat.le_trans (h v r hx) hmn

theorem okWithin_stringValue (x : Option (List Char × List Char)) (n : Nat)
    (h : RestWithin x n) : OkWithin (stringValue x) n := by
  cases x with
  | none => exact okWithin_error _ _
  | some p =>
    obtain ⟨s, r⟩ := p
    exact okWithin_ok _ _ _ (h s r rfl)

theorem okWithin_plainValue (v : JVal) (x : Option (List Char)) (n : Nat)
    (h : TailWithin x n) : OkWithin (plainValue v x) n := by
  cases x with
  | none => exact okWithin_error _ _
  | some r => exact okWithin_ok _ _ _ (h r rfl)

theorem scanString_rest_le (p : Option Nat) (cs s r : List Char)
    (h : scanString p cs = some (s, r)) : r.length ≤ cs.length :=
  scanString_restWithin cs.length p cs (Nat.le_refl _) s r h

theorem skipSpace_cons_le (r1 r2 : List Char) (c : Char) (h : skipSpace r1 = c :: r2) :
    r2.length + 1 ≤ r1.length := by
  have := skipSpace_length_le r1
  rw [h] at this
  simpa using this

theorem scan_okWithin (f : Nat) :
    ∀ (m : ScanMode) (d : Nat) (cs : List Char), OkWithin (scan f m d cs) cs.length := by
  induction f with
  | zero =>
    intro m d cs
    rw [scan.eq_def]
    exact okWithin_error _ _
  | succ f ih =>
    intro m d cs
    have hsp : ∀ (m2 : ScanMode) (d2 : Nat) (r : List Char) (n : Nat), r.length ≤ n →
        OkWithin (scan f m2 d2 (skipSpace r)) n := fun m2 d2 r n hr =>
      okWithin_mono _ _ _ (ih m2 d2 (skipSpace r))
        (Nat.le_trans (skipSpace_length_le r) hr)
    have hmem : ∀ (k : List Char) (d2 : Nat) (r1 : List Char) (n : Nat), r1.length ≤ n →
        OkWithin
          (match skipSpace r1 with
            | [] => Except.error syntaxError
            | c2 :: r2 =>
              if (c2 == ':') = true then
                match scan f ScanMode.value d2 (skipSpace r2) with
                | Except.ok (v, r3) =>
                  match scan f ScanMode.membersNext d2 (skipSpace r3) with
                  | Except.ok (JVal.obj ms, r4) => Except.ok (JVal.obj ((k, v) :: ms), r4)
                  | Except.ok _ => Except.error syntaxError
                  | Except.error e => Except.error e
                | Except.error e => Except.error e
              else Except.error syntaxError) n := by
      intro k d2 r1 n hr1
      split
      · exact okWithin_error _ _
      · rename_i c2 r2 hsk
        have h2 := skipSpace_cons_le r1 r2 c2 hsk
        split
        · split
          · rename_i v r3 hv
            have h3 := ih _ _ _ v r3 hv
            have h3b := skipSpace_length_le r2
            split
            · rename_i ms r4 hm
              have h4 := ih _ _ _ _ r4 hm
              have h4b := skipSpace_length_le r3
              exact okWithin_ok _ _ _ (by omega)
            · exact okWithin_error _ _
            · exact okWithin_error _ _
          · exact okWithin_error _ _
        · exact okWithin_error _ _
    rw [scan.eq_def]
    cases m <;> cases cs <;> simp only [List.length_cons]
    all_goals first
      | exact okWithin_error _ _
      | skip
    · -- value
      rename_i c r
      split
      · exact okWithin_stringValue _ _
          (restWithin_mono _ _ _ (scanString_restWithin r.length none r (Nat.le_refl _)) (by omega))
      · split
        · split
          · exact okWithin_error _ _
          · exact hsp _ _ _ _ (by omega)
        · split
          · split
            · exact okWithin_error _ _
            · exact hsp _ _ _ _ (by omega)
          · split
            · exact okWithin_plainValue _ _ _
                (tailWithin_mono _ _ _ (dropPrefix_tailWithin _ r) (by omega))
            · split
              · exact okWithin_plainValue _ _ _
                  (tailWithin_mono _ _ _ (dropPrefix_tailWithin _ r) (by omega))
              · split
                · exact okWithin_plainValue _ _ _
                    (tailWithin_mono _ _ _ (dropPrefix_tailWithin _ r) (by omega))
                · split
                  · exact okWithin_plainValue _ _ _
                      (tailWithin_mono _ _ _ (scanNumberBody_tailWithin r) (by omega))
                  · exact okWithin_plainValue _ _ _
                      (tailWithin_mono _ _ _ (scanNumberBody_tailWithin (c :: r)) (by simp))
    · -- elemsOpen
      rename_i c r
      split
      · exact okWithin_ok _ _ _ (by omega)
      · split
        · rename_i v r1 hv
          have h1 := ih _ _ _ v r1 hv
          simp only [List.length_cons] at h1
          exact hsp _ _ _ _ h1
        · exact okWithin_error _ _
    · -- elemsNext
      rename_i c r
      split
      · exact okWithin_ok _ _ _ (by omega)
      · split
        · split
          · rename_i v r1 hv
            have h1 := ih _ _ _ v r1 hv
            have h2 := skipSpace_length_le r
            exact hsp _ _ _ _ (by omega)
          · exact okWithin_error _ _
        · exact okWithin_error _ _
    · -- membersOpen
      rename_i c r
      split
      · exact okWithin_ok _ _ _ (by omega)
      · split
        · split
          · rename_i k r1 hk
            have h1 := scanString_rest_le none r k r1 hk
            exact hmem k d r1 _ (by omega)
          · exact okWithin_error _ _
        · exact okWithin_error _ _
    · -- membersNext
      rename_i c r
      split
      · exact okWithin_ok _ _ _ (by omega)
      · split
        · split
          · exact okWithin_error _ _
          · rename_i q r0 hq
            have h0 := skipSpace_cons_le r r0 q hq
            split
            · split
              · rename_i k r1 hk
                have h1 := scanString_rest_le none r0 k r1 hk
                exact hmem k d r1 _ (by omega)
              · exact okWithin_error _ _
            · exact okWithin_error _ _
        · exact okWithin_error _ _

theorem syntaxError_ne_outOfFuel : syntaxError ≠ outOfFuel := by decide

theorem error_syntax_ne (α : Type) :
    (Except.error syntaxError : Except String α) ≠ .error outOfFuel := by
  intro h
  exact syntaxError_ne_outOfFuel (Except.error.inj h)

theorem stringValue_ne (x : Option (List Char × List Char)) : stringValue x ≠ .error outOfFuel := by
  cases x with
  | none => exact error_syntax_ne _
  | some p => obtain ⟨s, r⟩ := p; intro h; cases h

theorem plainValue_ne (v : JVal) (x : Option (List Char)) : plainValue v x ≠ .error outOfFuel := by
  cases x with
  | none => exact error_syntax_ne _
  | some r => intro h; cases h

theorem scan_fuel_enough (f : Nat) :
    ∀ (m : ScanMode) (d : Nat) (cs : List Char), fuelBound m cs < f →
      scan f m d cs ≠ .error outOfFuel := by
  induction f with
  | zero => intro m d cs h; omega
  | succ f ih =>
    intro m d cs hf
    have hprop : ∀ (m2 : ScanMode) (d2 : Nat) (cs2 : List Char) (e : String),
        fuelBound m2 cs2 < f → scan f m2 d2 cs2 = .error e →
        (Except.error e : Except String (JVal × List Char)) ≠ .error outOfFuel := by
      intro m2 d2 cs2 e hb he
      rw [← he]
      exact ih m2 d2 cs2 hb
    have hmem : ∀ (k : List Char) (d2 : Nat) (r1 : List Char), 2 * r1.length < f →
        (match skipSpace r1 with
            | [] => Except.error syntaxError
            | c2 :: r2 =>
              if (c2 == ':') = true then
                match scan f ScanMode.value d2 (skipSpace r2) with
                | Except.ok (v, r3) =>
                  match scan f ScanMode.membersNext d2 (skipSpace r3) with
                  | Except.ok (JVal.obj ms, r4) => Except.ok (JVal.obj ((k, v) :: ms), r4)
                  | Except.ok _ => Except.error syntaxError
                  | Except.error e => Except.error e
                | Except.error e => Except.error e
              else Except.error syntaxError) ≠ .error outOfFuel := by
      intro k d2 r1 hr1
      split
      · exact error_syntax_ne _
      · rename_i c2 r2 hsk
        have h2 := skipSpace_cons_le r1 r2 c2 hsk
        have h2b := skipSpace_length_le r2
        split
        · split
          · rename_i v r3 hv
            have h3 := scan_okWithin f _ _ _ v r3 hv
            have h3b := skipSpace_length_le r3
            split
            · intro h; cases h
            · exact error_syntax_ne _
            · rename_i e he
              exact hprop _ _ _ e (by simp only [fuelBound]; omega) he
          · rename_i e he
            exact hprop _ _ _ e (by simp only [fuelBound]; omega) he
        · exact error_syntax_ne _
    rw [scan.eq_def]
    cases m <;> cases cs <;> simp only [fuelBound, List.length_cons] at hf ⊢
    all_goals first
      | exact error_syntax_ne _
      | skip
    · -- value
      rename_i c r
      have hr := skipSpace_length_le r
      split
      · exact stringValue_ne _
      · split
        · split
          · exact error_syntax_ne _
          · exact ih _ _ _ (by simp only [fuelBound]; omega)
        · split
          · split
            · exact error_syntax_ne _
            · exact ih _ _ _ (by simp only [fuelBound]; omega)
          · split
            · exact plainValue_ne _ _
            · split
              · exact plainValue_ne _ _
              · split
                · exact plainValue_ne _ _
                · split
                  · exact plainValue_ne _ _
                  · exact plainValue_ne _ _
    · -- elemsOpen
      rename_i c r
      split
      · intro h; cases h
      · split
        · rename_i v r1 hv
          have h1 := scan_okWithin f _ _ _ v r1 hv
          have h1b := skipSpace_length_le r1
          simp only [List.length_cons] at h1
          exact ih _ _ _ (by simp only [fuelBound]; omega)
        · rename_i e he
          exact hprop _ _ _ e (by simp only [fuelBound, List.length_cons]; omega) he
    · -- elemsNext
      rename_i c r
      have hr := skipSpace_length_le r
      split
      · intro h; cases h
      · split
        · split
          · rename_i v r1 hv
            have h1 := scan_okWithin f _ _ _ v r1 hv
            have h1b := skipSpace_length_le r1
            exact ih _ _ _ (by simp only [fuelBound]; omega)
          · rename_i e he
            exact hprop _ _ _ e (by simp only [fuelBound]; omega) he
        · exact error_syntax_ne _
    · -- membersOpen
      rename_i c r
      split
      · intro h; cases h
      · split
        · split
          · rename_i k r1 hk
            have h1 := scanString_rest_le none r k r1 hk
            exact hmem k d r1 (by omega)
          · exact error_syntax_ne _
        · exact error_syntax_ne _
    · -- membersNext
      rename_i c r
      split
      · intro h; cases h
      · split
        · split
          · exact error_syntax_ne _
          · rename_i q r0 hq
            have h0 := skipSpace_cons_le r r0 q hq
            split
            · split
              · rename_i k r1 hk
                have h1 := scanString_rest_le none r0 k r1 hk
                exact hmem k d r1 (by omega)
              · exact error_syntax_ne _
            · exact error_syntax_ne _
        · exact error_syntax_ne _

theorem ok_ne_outOfFuel (x : JVal × List Char) :
    (Except.ok x : Except String (JVal × List Char)) ≠ .error outOfFuel := by
  intro h; cases h

/-- One more unit of fuel does not change a scan that did not run out. -/
theorem scan_fuel_succ (f : Nat) :
    ∀ (m : ScanMode) (d : Nat) (cs : List Char), scan f m d cs ≠ .error outOfFuel →
      scan (f + 1) m d cs = scan f m d cs := by
  induction f with
  | zero =>
    intro m d cs h
    exact absurd (by rw [scan.eq_def]) h
  | succ f ih =>
    intro m d cs h
    have hmem : ∀ (k : List Char) (d2 : Nat) (r1 : List Char),
        (match skipSpace r1 with
            | [] => Except.error syntaxError
            | c2 :: r2 =>
              if (c2 == ':') = true then
                match scan f ScanMode.value d2 (skipSpace r2) with
                | Except.ok (v, r3) =>
                  match scan f ScanMode.membersNext d2 (skipSpace r3) with
                  | Except.ok (JVal.obj ms, r4) => Except.ok (JVal.obj ((k, v) :: ms), r4)
                  | Except.ok _ => Except.error syntaxError
                  | Except.error e => Except.error e
                | Except.error e => Except.error e
              else Except.error syntaxError) ≠ .error outOfFuel →
        (match skipSpace r1 with
            | [] => Except.error syntaxError
            | c2 :: r2 =>
              if (c2 == ':') = true then
                match scan (f + 1) ScanMode.value d2 (skipSpace r2) with
                | Except.ok (v, r3) =>
                  match scan (f + 1) ScanMode.membersNext d2 (skipSpace r3) with
                  | Except.ok (JVal.obj ms, r4) => Except.ok (JVal.obj ((k, v) :: ms), r4)
                  | Except.ok _ => Except.error syntaxError
                  | Except.error e => Except.error e
                | Except.error e => Except.error e
              else Except.error syntaxError)
          = (match skipSpace r1 with
            | [] => Except.error syntaxError
            | c2 :: r2 =>
              if (c2 == ':') = true then
                match scan f ScanMode.value d2 (skipSpace r2) with
                | Except.ok (v, r3) =>
                  match scan f ScanMode.membersNext d2 (skipSpace r3) with
                  | Except.ok (JVal.obj ms, r4) => Except.ok (JVal.obj ((k, v) :: ms), r4)
                  | Except.ok _ => Except.error syntaxError
                  | Except.error e => Except.error e
                | Except.error e => Except.error e
              else Except.error syntaxError) := by
      intro k d2 r1 hne
      cases hsk : skipSpace r1 with
      | nil => rfl
      | cons c2 r2 =>
        rw [hsk] at hne
        simp only at hne ⊢
        by_cases hc : (c2 == ':') = true
        · simp only [hc, ↓reduceIte] at hne ⊢
          cases hv : scan f ScanMode.value d2 (skipSpace r2) with
          | error e =>
            rw [hv] at hne
            simp only at hne
            rw [ih _ _ _ (by rw [hv]; exact hne), hv]
          | ok p =>
            obtain ⟨v, r3⟩ := p
            rw [hv] at hne
            simp only at hne
            rw [ih _ _ _ (by rw [hv]; exact ok_ne_outOfFuel _), hv]
            simp only
            cases hm : scan f ScanMode.membersNext d2 (skipSpace r3) with
            | error e =>
              rw [hm] at hne
              simp only at hne
              rw [ih _ _ _ (by rw [hm]; exact hne), hm]
            | ok q =>
              rw [ih _ _ _ (by rw [hm]; exact ok_ne_outOfFuel _), hm]
        · simp only [hc, Bool.false_eq_true, ↓reduceIte]
    rw [scan.eq_def] at h
    rw [scan.eq_def]
    conv_rhs => rw [scan.eq_def]
    cases m <;> cases cs <;> simp only at h ⊢
    · -- value
      rename_i c r
      by_cases h1 : (c == '"') = true
      · simp only [h1, ↓reduceIte]
      · simp only [h1, Bool.false_eq_true, ↓reduceIte] at h ⊢
        by_cases h2 : (c == '\x7b') = true
        · simp only [h2, ↓reduceIte] at h ⊢
          by_cases h3 : d + 1 > maxNestingDepth
          · simp only [h3, ↓reduceIte]
          · simp only [h3, Bool.false_eq_true, ↓reduceIte] at h ⊢
            exact ih _ _ _ h
        · simp only [h2, Bool.false_eq_true, ↓reduceIte] at h ⊢
          by_cases h4 : (c == '[') = true
          · simp only [h4, ↓reduceIte] at h ⊢
            by_cases h3 : d + 1 > maxNestingDepth
            · simp only [h3, ↓reduceIte]
            · simp only [h3, Bool.false_eq_true, ↓reduceIte] at h ⊢
              exact ih _ _ _ h
          · simp only [h4, Bool.false_eq_true, ↓reduceIte]
    · -- elemsOpen
      rename_i c r
      by_cases h1 : (c == ']') = true
      · simp only [h1, ↓reduceIte]
      · simp only [h1, Bool.false_eq_true, ↓reduceIte] at h ⊢
        cases hv : scan f ScanMode.value d (c :: r) with
        | error e =>
          rw [hv] at h
          simp only at h
          rw [ih _ _ _ (by rw [hv]; exact h), hv]
        | ok p =>
          obtain ⟨v, r1⟩ := p
          rw [hv] at h
          simp only at h
          rw [ih _ _ _ (by rw [hv]; exact ok_ne_outOfFuel _), hv]
          simp only
          exact ih _ _ _ h
    · -- elemsNext
      rename_i c r
      by_cases h1 : (c == ']') = true
      · simp only [h1, ↓reduceIte]
      · simp only [h1, Bool.false_eq_true, ↓reduceIte] at h ⊢
        by_cases h2 : (c == ',') = true
        · simp only [h2, ↓reduceIte] at h ⊢
          cases hv : scan f ScanMode.value d (skipSpace r) with
          | error e =>
            rw [hv] at h
            simp only at h
            rw [ih _ _ _ (by rw [hv]; exact h), hv]
          | ok p =>
            obtain ⟨v, r1⟩ := p
            rw [hv] at h
            simp only at h
            rw [ih _ _ _ (by rw [hv]; exact ok_ne_outOfFuel _), hv]
            simp only
            exact ih _ _ _ h
        · simp only [h2, Bool.false_eq_true, ↓reduceIte]
    · -- membersOpen
      rename_i c r
      by_cases h1 : (c == '\x7d') = true
      · simp only [h1, ↓reduceIte]
      · simp only [h1, Bool.false_eq_true, ↓reduceIte] at h ⊢
        by_cases h2 : (c == '"') = true
        · simp only [h2, ↓reduceIte] at h ⊢
          cases hk : scanString none r with
          | none => rfl
          | some p =>
            obtain ⟨k, r1⟩ := p
            rw [hk] at h
            simp only at h ⊢
            exact hmem k d r1 h
        · simp only [h2, Bool.false_eq_true, ↓reduceIte]
    · -- membersNext
      rename_i c r
      by_cases h1 : (c == '\x7d') = true
      · simp only [h1, ↓reduceIte]
      · simp only [h1, Bool.false_eq_true, ↓reduceIte] at h ⊢
        by_cases h2 : (c == ',') = true
        · simp only [h2, ↓reduceIte] at h ⊢
          cases hq : skipSpace r with
          | nil => rfl
          | cons q r0 =>
            rw [hq] at h
            simp only at h ⊢
            by_cases h3 : (q == '"') = true
            · simp only [h3, ↓reduceIte] at h ⊢
              cases hk : scanString none r0 with
              | none => rfl
              | some p =>
                obtain ⟨k, r1⟩ := p
                rw [hk] at h
                simp only at h ⊢
                exact hmem k d r1 h
            · simp only [h3, Bool.false_eq_true, ↓reduceIte]
        · simp only [h2, Bool.false_eq_true, ↓reduceIte]

theorem scan_fuel_add (f : Nat) (m : ScanMode) (d : Nat) (cs : List Char)
    (h : scan f m d cs ≠ .error outOfFuel) : ∀ k : Nat, scan (f + k) m d cs = scan f m d cs := by
  intro k
  induction k with
  | zero => rfl
  | succ k ih =>
    have hk : scan (f + k) m d cs ≠ .error outOfFuel := by rw [ih]; exact h
    rw [← Nat.add_assoc, scan_fuel_succ (f + k) m d cs hk, ih]

/-- The fuel of `parseJSON` is enough: the scanner does not run out of it, and
with any larger fuel its result is the same. -/
theorem parseJSON_fuel (data : List Char) :
    scan (2 * data.length + 1) .value 0 (skipSpace data) ≠ .error outOfFuel
      ∧ ∀ k : Nat, scan (2 * data.length + 1 + k) .value 0 (skipSpace data)
          = scan (2 * data.length + 1) .value 0 (skipSpace data) := by
  have h : scan (2 * data.length + 1) .value 0 (skipSpace data) ≠ .error outOfFuel := by
    apply scan_fuel_enough
    have := skipSpace_length_le data
    simp only [fuelBound]
    omega
  exact ⟨h, scan_fuel_add _ _ _ _ h⟩

theorem storeExpiration_ne (rms : requestMemberShip) (item : List Char) :
    storeExpiration rms item ≠ .error outOfFuel := by
  unfold storeExpiration
  repeat' split
  all_goals first
    | (intro h; cases h)
    | (intro h; exact absurd (Except.error.inj h) (by decide))

theorem storeField_ne (rms : requestMemberShip) (f : Field) (v : JVal) :
    storeField rms f v ≠ .error outOfFuel := by
  unfold storeField
  split
  all_goals first
    | exact storeExpiration_ne _ _
    | (intro h; cases h)
    | (intro h; exact absurd (Except.error.inj h) (by decide))

theorem decodeMembers_ne (ms : List (List Char × JVal)) :
    ∀ rms : requestMemberShip, decodeMembers rms ms ≠ .error outOfFuel := by
  induction ms with
  | nil => intro rms h; cases h
  | cons kv ms ih =>
    intro rms
    obtain ⟨k, v⟩ := kv
    unfold decodeMembers
    split
    · exact ih rms
    · split
      · exact ih _
      · rename_i e he
        rw [← he]
        exact storeField_ne _ _ _

theorem parseJSON_ne_outOfFuel (data : List Char) : parseJSON data ≠ .error outOfFuel := by
  unfold parseJSON
  have hf := (parseJSON_fuel data).1
  cases hs : scan (2 * data.length + 1) .value 0 (skipSpace data) with
  | error e =>
    rw [hs] at hf
    simpa using hf
  | ok p =>
    obtain ⟨v, rest⟩ := p
    simp only
    split
    · intro h; cases h
    · exact error_syntax_ne _

/-- The decoder never fails for lack of fuel: an error of `jsonUnmarshal` is a
syntax error or a value the destination cannot take. -/
theorem jsonUnmarshal_ne_outOfFuel (data : String) : jsonUnmarshal data ≠ .error outOfFuel := by
  unfold jsonUnmarshal
  have hp := parseJSON_ne_outOfFuel data.data
  cases hs : parseJSON data.data with
  | error e =>
    rw [hs] at hp
    simpa using hp
  | ok v =>
    cases v with
    | obj ms => exact decodeMembers_ne ms _
    | null => intro h; cases h
    | str s => intro h; exact absurd (Except.error.inj h) (by decide)
    | other => intro h; exact absurd (Except.error.inj h) (by decide)

/-! ### The round trip of the button payload -/

theorem scanString_plain (s rest : List Char) (hs : ∀ c ∈ s, plainChar c = true) :
    scanString none (s ++ '"' :: rest) = some (s, rest) := by
  induction s with
  | nil =>
    rw [scanString.eq_def]
    simp [flush]
  | cons c s ih =>
    have hc := hs c (List.mem_cons_self c s)
    have hs2 : ∀ d ∈ s, plainChar d = true := fun d hd => hs d (List.mem_cons_of_mem c hd)
    simp only [plainChar, Bool.and_eq_true, bne_iff_ne, ne_eq, decide_eq_true_eq] at hc
    obtain ⟨⟨h1, h2⟩, h3⟩ := hc
    have h4 : ¬ c.toNat < 32 := by omega
    rw [List.cons_append, scanString.eq_def]
    simp [h1, h2, h4, ih hs2, flush, consChar]

theorem scan_string_value (n depth : Nat) (v rest : List Char)
    (hv : ∀ c ∈ v, plainChar c = true) :
    scan (n + 1) .value depth ('"' :: (v ++ '"' :: rest)) = .ok (.str v, rest) := by
  rw [scan.eq_def]
  simp [scanString_plain v rest hv, stringValue]

theorem scan_next_member (n depth : Nat) (k v rest : List Char)
    (hk : ∀ c ∈ k, plainChar c = true) (hv : ∀ c ∈ v, plainChar c = true) :
    scan (n + 2) .membersNext depth (',' :: memberChars k v rest) =
      match scan (n + 1) .membersNext depth (skipSpace rest) with
      | .ok (.obj ms, r4) => .ok (.obj ((k, .str v) :: ms), r4)
      | .ok _ => .error syntaxError
      | .error e => .error e := by
  rw [scan.eq_def]
  simp [memberChars, skipSpace, isSpace, scanString_plain k _ hk,
    scan_string_value n depth v rest hv]

theorem scan_first_member (n depth : Nat) (k v rest : List Char)
    (hk : ∀ c ∈ k, plainChar c = true) (hv : ∀ c ∈ v, plainChar c = true) :
    scan (n + 2) .membersOpen depth (memberChars k v rest) =
      match scan (n + 1) .membersNext depth (skipSpace rest) with
      | .ok (.obj ms, r4) => .ok (.obj ((k, .str v) :: ms), r4)
      | .ok _ => .error syntaxError
      | .error e => .error e := by
  rw [scan.eq_def]
  simp [memberChars, skipSpace, isSpace, scanString_plain k _ hk,
    scan_string_value n depth v rest hv]

theorem scan_close (n depth : Nat) (rest : List Char) :
    scan (n + 1) .membersNext depth ('\x7d' :: rest) = .ok (.obj [], rest) := by
  rw [scan.eq_def]
  simp

theorem skipSpace_restChars (kvs : List (List Char × List Char)) :
    skipSpace (restChars kvs) = restChars kvs := by
  cases kvs with
  | nil => simp [restChars, skipSpace, isSpace]
  | cons kv kvs => simp [restChars, skipSpace, isSpace]

/-- The scanner reads the remaining members of an object of plain keys and
plain string values, given one unit of fuel a member and one for the brace. -/
theorem scan_restChars (depth : Nat) (kvs : List (List Char × List Char))
    (hp : ∀ kv ∈ kvs, (∀ c ∈ kv.1, plainChar c = true) ∧ (∀ c ∈ kv.2, plainChar c = true)) :
    ∀ f : Nat, kvs.length + 1 ≤ f →
      scan f .membersNext depth (restChars kvs) =
        .ok (.obj (kvs.map (fun kv => (kv.1, JVal.str kv.2))), []) := by
  induction kvs with
  | nil =>
    intro f hf
    obtain ⟨n, rfl⟩ : ∃ n, f = n + 1 := ⟨f - 1, by simp at hf; omega⟩
    simpa [restChars] using scan_close n depth []
  | cons kv kvs ih =>
    intro f hf
    obtain ⟨n, rfl⟩ : ∃ n, f = n + 2 := ⟨f - 2, by simp at hf; omega⟩
    have hkv := hp kv (List.mem_cons_self kv kvs)
    have hrest : ∀ kv2 ∈ kvs,
        (∀ c ∈ kv2.1, plainChar c = true) ∧ (∀ c ∈ kv2.2, plainChar c = true) :=
      fun kv2 h2 => hp kv2 (List.mem_cons_of_mem kv h2)
    have hn : kvs.length + 1 ≤ n + 1 := by simp at hf; omega
    obtain ⟨k, v⟩ := kv
    simp only [restChars]
    rw [scan_next_member n depth k v _ hkv.1 hkv.2, skipSpace_restChars, ih hrest (n + 1) hn]
    simp

theorem skipSpace_memberChars (k v rest : List Char) :
    skipSpace (memberChars k v rest) = memberChars k v rest := by
  simp [memberChars, skipSpace, isSpace]

theorem restChars_length (kvs : List (List Char × List Char)) :
    kvs.length + 1 ≤ (restChars kvs).length := by
  induction kvs with
  | nil => simp [restChars]
  | cons kv kvs ih =>
    obtain ⟨k, v⟩ := kv
    simp only [restChars, memberChars, List.length_cons, List.length_append]
    omega

theorem scan_object (n : Nat) (k v : List Char) (kvs : List (List Char × List Char))
    (hk : ∀ c ∈ k, plainChar c = true) (hv : ∀ c ∈ v, plainChar c = true)
    (hp : ∀ kv ∈ kvs, (∀ c ∈ kv.1, plainChar c = true) ∧ (∀ c ∈ kv.2, plainChar c = true))
    (hn : kvs.length + 1 ≤ n + 1) :
    scan (n + 3) .value 0 ('\x7b' :: memberChars k v (restChars kvs)) =
      .ok (.obj ((k, .str v) :: kvs.map (fun kv => (kv.1, JVal.str kv.2))), []) := by
  rw [scan.eq_def]
  simp only [skipSpace_memberChars]
  rw [scan_first_member n 1 k v _ hk hv, skipSpace_restChars, scan_restChars 1 kvs hp (n + 1) hn]
  simp [maxNestingDepth]

/-- The parser reads an object of plain keys and plain string values. -/
theorem parseJSON_object (k v : List Char) (kvs : List (List Char × List Char))
    (hk : ∀ c ∈ k, plainChar c = true) (hv : ∀ c ∈ v, plainChar c = true)
    (hp : ∀ kv ∈ kvs, (∀ c ∈ kv.1, plainChar c = true) ∧ (∀ c ∈ kv.2, plainChar c = true)) :
    parseJSON ('\x7b' :: memberChars k v (restChars kvs)) =
      .ok (.obj ((k, .str v) :: kvs.map (fun kv => (kv.1, JVal.str kv.2)))) := by
  have hlen := restChars_length kvs
  obtain ⟨n, hn, hle⟩ : ∃ n, 2 * ('\x7b' :: memberChars k v (restChars kvs)).length + 1 = n + 3
      ∧ kvs.length + 1 ≤ n + 1 := by
    refine ⟨2 * ('\x7b' :: memberChars k v (restChars kvs)).length - 2, ?_, ?_⟩
    · simp only [memberChars, List.length_cons, List.length_append]
      omega
    · simp only [memberChars, List.length_cons, List.length_append]
      omega
  unfold parseJSON
  rw [hn]
  have hs : skipSpace ('\x7b' :: memberChars k v (restChars kvs))
      = '\x7b' :: memberChars k v (restChars kvs) := by
    simp [skipSpace, isSpace]
  rw [hs, scan_object n k v kvs hk hv hp hle]
  simp [skipSpace]

/-! ### Decimal numerals -/

theorem digitChar_toNat (d : Nat) (hd : d < 10) : (Nat.digitChar d).toNat = 48 + d := by
  interval_cases d <;> rfl

theorem isDigit_digitChar (d : Nat) (hd : d < 10) : isDigit (Nat.digitChar d) = true := by
  simp [isDigit, digitChar_toNat d hd]
  omega

theorem parseUint_digitChar (d : Nat) (hd : d < 10) (ds : List Char) (acc : Nat) :
    parseUint (Nat.digitChar d :: ds) acc = parseUint ds (acc * 10 + d) := by
  simp [parseUint, isDigit_digitChar d hd, digitChar_toNat d hd]

theorem parseUint_toDigitsCore (fuel : Nat) :
    ∀ (n : Nat) (ds : List Char), n < fuel →
      ∃ k : Nat, ∀ acc : Nat,
        parseUint (Nat.toDigitsCore 10 fuel n ds) acc = parseUint ds (acc * 10 ^ k + n) := by
  induction fuel with
  | zero => intro n ds h; omega
  | succ fuel ih =>
    intro n ds hn
    have hmod : n % 10 < 10 := Nat.mod_lt n (by decide)
    by_cases h0 : n / 10 = 0
    · refine ⟨1, fun acc => ?_⟩
      have hn10 : n % 10 = n := by omega
      simp only [Nat.toDigitsCore, h0, if_true]
      rw [parseUint_digitChar _ hmod, hn10]
      simp
    · have hlt : n / 10 < fuel := by omega
      obtain ⟨k, hk⟩ := ih (n / 10) (Nat.digitChar (n % 10) :: ds) hlt
      refine ⟨k + 1, fun acc => ?_⟩
      simp only [Nat.toDigitsCore, h0, if_false]
      rw [hk acc, parseUint_digitChar _ hmod]
      congr 1
      have := Nat.div_add_mod n 10
      rw [pow_succ]
      nlinarith

theorem parseUint_toDigits (n : Nat) : parseUint (Nat.toDigits 10 n) 0 = some n := by
  obtain ⟨k, hk⟩ := parseUint_toDigitsCore (n + 1) n [] (Nat.lt_succ_self n)
  have := hk 0
  simpa [Nat.toDigits, parseUint] using this

theorem toDigitsCore_all_digits (fuel : Nat) :
    ∀ (n : Nat) (ds : List Char), (∀ c ∈ ds, isDigit c = true) →
      ∀ c ∈ Nat.toDigitsCore 10 fuel n ds, isDigit c = true := by
  induction fuel with
  | zero => intro n ds h c hc; exact h c (by simpa [Nat.toDigitsCore] using hc)
  | succ fuel ih =>
    intro n ds h
    have hmod : n % 10 < 10 := Nat.mod_lt n (by decide)
    have hcons : ∀ c ∈ Nat.digitChar (n % 10) :: ds, isDigit c = true := by
      intro c hc
      rcases List.mem_cons.1 hc with rfl | hc
      · exact isDigit_digitChar _ hmod
      · exact h c hc
    by_cases h0 : n / 10 = 0
    · simpa only [Nat.toDigitsCore, h0, if_true] using hcons
    · simpa only [Nat.toDigitsCore, h0, if_false] using ih (n / 10) _ hcons

theorem toDigits_all_digits (n : Nat) : ∀ c ∈ Nat.toDigits 10 n, isDigit c = true :=
  toDigitsCore_all_digits (n + 1) n [] (by simp)

theorem toDigitsCore_ne_nil (fuel : Nat) :
    ∀ (n : Nat) (ds : List Char), ds ≠ [] → Nat.toDigitsCore 10 fuel n ds ≠ [] := by
  induction fuel with
  | zero => intro n ds h; simpa [Nat.toDigitsCore] using h
  | succ fuel ih =>
    intro n ds _
    by_cases h0 : n / 10 = 0
    · simp [Nat.toDigitsCore, h0]
    · simpa only [Nat.toDigitsCore, h0, if_false] using ih (n / 10) _ (List.cons_ne_nil _ _)

theorem toDigits_ne_nil (n : Nat) : Nat.toDigits 10 n ≠ [] := by
  unfold Nat.toDigits
  by_cases h0 : n / 10 = 0
  · simp [Nat.toDigitsCore, h0]
  · simpa only [Nat.toDigitsCore, h0, if_false] using
      toDigitsCore_ne_nil n (n / 10) _ (List.cons_ne_nil _ _)

theorem plainChar_of_isDigit (c : Char) (h : isDigit c = true) : plainChar c = true := by
  simp only [isDigit, Bool.and_eq_true, decide_eq_true_eq] at h
  have h1 : c ≠ '"' := by
    rintro rfl
    exact absurd h.1 (by decide)
  have h2 : c ≠ '\\' := by
    rintro rfl
    exact absurd h.2 (by decide)
  simp only [plainChar, Bool.and_eq_true, bne_iff_ne, ne_eq, decide_eq_true_eq]
  exact ⟨⟨h1, h2⟩, by omega⟩

theorem storeExpiration_repr (rms : requestMemberShip) (h : Nat) (hh : h < 2 ^ 63) :
    storeExpiration rms (Nat.repr h).data = .ok { rms with Expiration := (h : Int) } := by
  have hdata : (Nat.repr h).data = Nat.toDigits 10 h := rfl
  rw [hdata]
  have hparse := parseUint_toDigits h
  have hall := toDigits_all_digits h
  cases hl : Nat.toDigits 10 h with
  | nil => exact absurd hl (toDigits_ne_nil h)
  | cons c cs =>
    rw [hl] at hparse hall
    have hc : isDigit c = true := hall c (List.mem_cons_self c cs)
    have hc2 := hc
    simp only [isDigit, Bool.and_eq_true, decide_eq_true_eq] at hc2
    have hn : c ≠ 'n' := by rintro rfl; exact absurd hc2.2 (by decide)
    have ht : c ≠ 't' := by rintro rfl; exact absurd hc2.2 (by decide)
    have hf : c ≠ 'f' := by rintro rfl; exact absurd hc2.2 (by decide)
    have hq : c ≠ '"' := by rintro rfl; exact absurd hc2.1 (by decide)
    have hm : c ≠ '-' := by rintro rfl; exact absurd hc2.1 (by decide)
    have hp : c ≠ '+' := by rintro rfl; exact absurd hc2.1 (by decide)
    have hh2 : h < 9223372036854775808 := by
      have : (2 : Nat) ^ 63 = 9223372036854775808 := by norm_num
      omega
    simp [storeExpiration, ParseInt, hn, ht, hf, hq, hm, hp, hc, hparse, hh2]

theorem intRepr_negSucc_data (m : Nat) :
    (Int.repr (Int.negSucc m)).data = '-' :: Nat.toDigits 10 (m + 1) := by
  rfl

theorem storeExpiration_negSucc (rms : requestMemberShip) (m : Nat) (hm : m + 1 ≤ 2 ^ 63) :
    storeExpiration rms ('-' :: Nat.toDigits 10 (m + 1)) =
      .ok { rms with Expiration := Int.negSucc m } := by
  have hparse := parseUint_toDigits (m + 1)
  have hm2 : m + 1 ≤ 9223372036854775808 := by
    have : (2 : Nat) ^ 63 = 9223372036854775808 := by norm_num
    omega
  cases hl : Nat.toDigits 10 (m + 1) with
  | nil => exact absurd hl (toDigits_ne_nil (m + 1))
  | cons c cs =>
    rw [hl] at hparse
    have hneg : -((m : Int) + 1) = Int.negSucc m := by
      rw [Int.negSucc_eq]
    simp [storeExpiration, ParseInt, isDigit, hparse, hm2, hneg]

/-- The decoder stores the decimal numeral of a 64-bit integer as that integer. -/
theorem storeExpiration_intRepr (rms : requestMemberShip) (h : Int)
    (h1 : -(2 : Int) ^ 63 ≤ h) (h2 : h < (2 : Int) ^ 63) :
    storeExpiration rms (Int.repr h).data = .ok { rms with Expiration := h } := by
  cases h with
  | ofNat m =>
    have hm : m < 2 ^ 63 := by
      have : ((m : Nat) : Int) < (2 : Int) ^ 63 := h2
      exact_mod_cast this
    exact storeExpiration_repr rms m hm
  | negSucc m =>
    have hm : m + 1 ≤ 2 ^ 63 := by
      have h3 : -(2 : Int) ^ 63 ≤ -((m : Int) + 1) := by
        rw [Int.negSucc_eq] at h1
        exact h1
      have h4 : ((m : Int) + 1) ≤ (2 : Int) ^ 63 := by linarith
      exact_mod_cast h4
    rw [intRepr_negSucc_data]
    exact storeExpiration_negSucc rms m hm

theorem plainText_iff (s : String) : plainText s = true ↔ ∀ c ∈ s.data, plainChar c = true := by
  simp [plainText, List.all_eq_true]

theorem plain_repr (h : Nat) : ∀ c ∈ (Nat.repr h).data, plainChar c = true := by
  intro c hc
  exact plainChar_of_isDigit c (toDigits_all_digits h c hc)

theorem plain_intRepr (h : Int) : ∀ c ∈ (Int.repr h).data, plainChar c = true := by
  cases h with
  | ofNat m => exact plain_repr m
  | negSucc m =>
    rw [intRepr_negSucc_data]
    intro c hc
    rcases List.mem_cons.1 hc with rfl | hc
    · decide
    · exact plainChar_of_isDigit c (toDigits_all_digits (m + 1) c hc)

/-- The characters of the button payload, with the six values in place. -/
theorem buttonValueOf_data (e i g n x r : String) :
    (buttonValueOf e i g n x r).data =
      '\x7b' :: '"' :: ("addingUserEmail".data ++ '"' :: ':' :: '"' :: (e.data ++ '"' ::
        ',' :: '"' :: ("addingUserID".data ++ '"' :: ':' :: '"' :: (i.data ++ '"' ::
        ',' :: '"' :: ("groupID".data ++ '"' :: ':' :: '"' :: (g.data ++ '"' ::
        ',' :: '"' :: ("groupName".data ++ '"' :: ':' :: '"' :: (n.data ++ '"' ::
        ',' :: '"' :: ("expiration".data ++ '"' :: ':' :: '"' :: (x.data ++ '"' ::
        ',' :: '"' :: ("requestedUserID".data ++ '"' :: ':' :: '"' :: (r.data ++ '"' ::
        ['\x7d'])))))))))))) := by
  have p0 : ("\x7b\"addingUserEmail\":\"" : String).data
      = '\x7b' :: '"' :: ("addingUserEmail".data ++ ['"', ':', '"']) := by decide
  have p1 : ("\",\"addingUserID\":\"" : String).data
      = '"' :: ',' :: '"' :: ("addingUserID".data ++ ['"', ':', '"']) := by decide
  have p2 : ("\",\"groupID\":\"" : String).data
      = '"' :: ',' :: '"' :: ("groupID".data ++ ['"', ':', '"']) := by decide
  have p3 : ("\",\"groupName\":\"" : String).data
      = '"' :: ',' :: '"' :: ("groupName".data ++ ['"', ':', '"']) := by decide
  have p4 : ("\",\"expiration\":\"" : String).data
      = '"' :: ',' :: '"' :: ("expiration".data ++ ['"', ':', '"']) := by decide
  have p5 : ("\",\"requestedUserID\":\"" : String).data
      = '"' :: ',' :: '"' :: ("requestedUserID".data ++ ['"', ':', '"']) := by decide
  have p6 : ("\"\x7d" : String).data = ['"', '\x7d'] := by decide
  simp only [buttonValueOf, String.data_append, p0, p1, p2, p3, p4, p5, p6, List.append_assoc,
    List.cons_append, List.nil_append]

theorem buttonValueOf_members (e i g n x r : String) :
    (buttonValueOf e i g n x r).data =
      '\x7b' :: memberChars "addingUserEmail".data e.data
        (restChars [("addingUserID".data, i.data), ("groupID".data, g.data),
          ("groupName".data, n.data), ("expiration".data, x.data),
          ("requestedUserID".data, r.data)]) := by
  rw [buttonValueOf_data]
  rfl

/-- C3 (as stated, refuted): a group name with a double quote gives a payload
that does not decode; a group name can carry further members into the payload,
which then decodes to another group; and an empty expiration value gives a
payload that does not decode. -/
theorem buttonValue_round_trip_fails :
    jsonUnmarshal (buttonValueOf "bob@x.com" "U2" "groups/G2" "Team \"A\"" "6" "U1") =
        .error syntaxError
      ∧ jsonUnmarshal
          (buttonValueOf "bob@x.com" "U2" "groups/G2" "x\",\"groupID\":\"groups/admins" "6" "U1") =
        .ok { AddingUserEmail := "bob@x.com", AddingUserID := "U2", GroupID := "groups/admins",
              GroupName := "x", Expiration := 6, RequestedUserID := "U1" }
      ∧ jsonUnmarshal (buttonValueOf "bob@x.com" "U2" "groups/G2" "G2" "" "U1") =
        .error stringTagError := by
  refine ⟨rfl, rfl, rfl⟩

/-- C3 (amended): when the nominee email, nominee id, group id, group name and
requester id contain no double quote, no backslash and no control character,
and the expiration value is the decimal numeral of an integer h of 64 bits
(-2^63 <= h < 2^63), the button payload decodes through `json.Unmarshal` into
a `requestMemberShip` whose six fields are exactly the original values, with
`Expiration` equal to h. -/
theorem buttonValue_round_trip (addingUserEmail addingUserID groupID groupName requestedUserID : String)
    (h : Int) (he : plainText addingUserEmail = true) (hi : plainText addingUserID = true)
    (hg : plainText groupID = true) (hn : plainText groupName = true)
    (hr : plainText requestedUserID = true)
    (h1 : -(2 : Int) ^ 63 ≤ h) (h2 : h < (2 : Int) ^ 63) :
    jsonUnmarshal
        (buttonValueOf addingUserEmail addingUserID groupID groupName (Int.repr h) requestedUserID) =
      .ok { AddingUserEmail := addingUserEmail, AddingUserID := addingUserID, GroupID := groupID,
            GroupName := groupName, Expiration := h, RequestedUserID := requestedUserID } := by
  rw [plainText_iff] at he hi hg hn hr
  have k1 : ∀ c ∈ "addingUserEmail".data, plainChar c = true := by decide
  have k2 : ∀ c ∈ "addingUserID".data, plainChar c = true := by decide
  have k3 : ∀ c ∈ "groupID".data, plainChar c = true := by decide
  have k4 : ∀ c ∈ "groupName".data, plainChar c = true := by decide
  have k5 : ∀ c ∈ "expiration".data, plainChar c = true := by decide
  have k6 : ∀ c ∈ "requestedUserID".data, plainChar c = true := by decide
  have f1 : findField "addingUserEmail".data = some .AddingUserEmail := by rfl
  have f2 : findField "addingUserID".data = some .AddingUserID := by rfl
  have f3 : findField "groupID".data = some .GroupID := by rfl
  have f4 : findField "groupName".data = some .GroupName := by rfl
  have f5 : findField "expiration".data = some .Expiration := by rfl
  have f6 : findField "requestedUserID".data = some .RequestedUserID := by rfl
  have hp : ∀ kv ∈ [("addingUserID".data, addingUserID.data), ("groupID".data, groupID.data),
      ("groupName".data, groupName.data), ("expiration".data, (Int.repr h).data),
      ("requestedUserID".data, requestedUserID.data)],
      (∀ c ∈ kv.1, plainChar c = true) ∧ (∀ c ∈ kv.2, plainChar c = true) := by
    intro kv hkv
    simp only [List.mem_cons, List.mem_singleton, List.not_mem_nil, or_false] at hkv
    rcases hkv with rfl | rfl | rfl | rfl | rfl
    · exact ⟨k2, hi⟩
    · exact ⟨k3, hg⟩
    · exact ⟨k4, hn⟩
    · exact ⟨k5, plain_intRepr h⟩
    · exact ⟨k6, hr⟩
  unfold jsonUnmarshal
  rw [buttonValueOf_members, parseJSON_object _ _ _ k1 he hp]
  simp only [List.map, decodeMembers, f1, f2, f3, f4, f5, f6, storeField,
    storeExpiration_intRepr _ h h1 h2]

/-- C3, witness: the numeral of 6 is "6", and the payload of the request for
bob@x.com, group G2 and six hours decodes to that request. -/
theorem buttonValue_round_trip_witness :
    Int.repr 6 = "6"
      ∧ jsonUnmarshal (buttonValueOf "bob@x.com" "U2" "groups/G2" "G2" (Int.repr 6) "U1") =
        .ok { AddingUserEmail := "bob@x.com", AddingUserID := "U2", GroupID := "groups/G2",
              GroupName := "G2", Expiration := 6, RequestedUserID := "U1" } :=
  ⟨by decide,
   buttonValue_round_trip "bob@x.com" "U2" "groups/G2" "G2" "U1" 6 (by decide) (by decide)
    (by decide) (by decide) (by decide) (by decide) (by decide)⟩

end GwgManager
